import Mathlib

/-!
# go-birthday-calendar: the birthday message rule and the BirthDate value

A shallow embedding of `pkg/models/db.go` (the `BirthDate` type with its JSON
and SQL codecs) and `pkg/conf/handlers.go` (the `BirthdayMessage` and
`PersonsBirthday` handlers), together with the parts of the Go standard
library (`time`, `strings`) and of the storage layer that these functions call.

Conventions.
* Go `string` and `[]byte` values that are parsed or produced by the date
  codecs are lists of characters, one per byte.  Every byte the codecs accept
  or emit is ASCII.
* Go `int`, `int64` and `uint64` values are unbounded integers.  The calendar
  arithmetic of package `time` does not overflow for any year that a
  `time.Time` can hold, so no reduction modulo `2^64` is applied.
* `x / y` and `x % y` are used only where both operands are non-negative in
  the Go code (unsigned values, or signed values behind a sign test), or where
  the remainder is only compared with zero; there Go's truncated division and
  the Euclidean division used here agree.  `Int.tdiv` and `Int.tmod` are used
  where Go divides a signed value that may be negative.
-/

namespace GoTime

/-! ## Package `time`: calendar arithmetic -/

def secondsPerMinute : Int := 60
def secondsPerHour : Int := 60 * secondsPerMinute
def secondsPerDay : Int := 24 * secondsPerHour
def daysPer400Years : Int := 365 * 400 + 97
def daysPer100Years : Int := 365 * 100 + 24
def daysPer4Years : Int := 365 * 4 + 1

/-- The year of the zero of the absolute time scale; it is `1 mod 400`. -/
def absoluteZeroYear : Int := -292277022399

/-- Constant `absoluteToInternal` of package `time`:
`(absoluteZeroYear - internalYear) * 365.2425 * secondsPerDay` with `internalYear = 1`. -/
def absoluteToInternal : Int := -9223371966579724800

def internalToAbsolute : Int := -absoluteToInternal

/-- Go `isLeap`. -/
def isLeap (year : Int) : Bool :=
  year % 4 = 0 && (year % 100 != 0 || year % 400 = 0)

/-- Go array `daysBefore`: `daysBefore[m]` counts the days of a non-leap year
before month `m + 1` starts. -/
def daysBefore : List Int :=
  [0,
   31,
   31 + 28,
   31 + 28 + 31,
   31 + 28 + 31 + 30,
   31 + 28 + 31 + 30 + 31,
   31 + 28 + 31 + 30 + 31 + 30,
   31 + 28 + 31 + 30 + 31 + 30 + 31,
   31 + 28 + 31 + 30 + 31 + 30 + 31 + 31,
   31 + 28 + 31 + 30 + 31 + 30 + 31 + 31 + 30,
   31 + 28 + 31 + 30 + 31 + 30 + 31 + 31 + 30 + 31,
   31 + 28 + 31 + 30 + 31 + 30 + 31 + 31 + 30 + 31 + 30,
   31 + 28 + 31 + 30 + 31 + 30 + 31 + 31 + 30 + 31 + 30 + 31]

/-- Indexing `daysBefore[i]`.  Every index used below lies in `0..12`. -/
def daysBeforeAt (i : Int) : Int := daysBefore.getD i.toNat 0

/-- Go `daysIn`. -/
def daysIn (m : Int) (year : Int) : Int :=
  if m = 2 && isLeap year then 29
  else daysBeforeAt m - daysBeforeAt (m - 1)

/-- Go `norm`: returns `nhi, nlo` with `hi * base + lo = nhi * base + nlo` and
`0 ≤ nlo < base`. -/
def norm (hi lo base : Int) : Int × Int :=
  let (hi, lo) :=
    if lo < 0 then
      let n := (-lo - 1) / base + 1
      (hi - n, lo + n * base)
    else (hi, lo)
  if lo ≥ base then
    let n := lo / base
    (hi + n, lo - n * base)
  else (hi, lo)

/-- Go `daysSinceEpoch`: days from the absolute epoch to the start of `year`. -/
def daysSinceEpoch (year : Int) : Int :=
  let y := year - absoluteZeroYear
  -- Add in days from 400-year cycles.
  let n := y / 400
  let y := y - 400 * n
  let d := daysPer400Years * n
  -- Add in 100-year cycles.
  let n := y / 100
  let y := y - 100 * n
  let d := d + daysPer100Years * n
  -- Add in 4-year cycles.
  let n := y / 4
  let y := y - 4 * n
  let d := d + daysPer4Years * n
  -- Add in non-leap years.
  let n := y
  d + 365 * n

/-- A `*time.Location` as far as the code here can observe one: `UTC`, or a
zone which puts the instant in question `offset` seconds east of UTC. -/
inductive Location where
  | UTC
  | zone (offset : Int)
deriving DecidableEq, Repr

def Location.offset : Location → Int
  | .UTC => 0
  | .zone o => o

/-- A `time.Time` without monotonic clock reading: `sec` counts seconds since
January 1, year 1 00:00:00 UTC, `nsec` the nanoseconds within the second. -/
structure Time where
  sec : Int
  nsec : Int
  loc : Location
deriving DecidableEq, Repr

/-- The zero `time.Time{}`: January 1, year 1, 00:00:00 UTC. -/
def Time.zero : Time := ⟨0, 0, .UTC⟩

/-- Go `Time.abs`: seconds since the absolute epoch, shifted to the time's zone. -/
def Time.abs (t : Time) : Int := t.sec + t.loc.offset + internalToAbsolute

/-- The first half of Go `absDate`: the year and the zero-based day of the
year of an absolute time. -/
def absYearDay (abs : Int) : Int × Int :=
  -- Split into time and day.
  let d := abs / secondsPerDay
  -- Account for 400 year cycles.
  let n := d / daysPer400Years
  let y := 400 * n
  let d := d - daysPer400Years * n
  -- Cut off 100-year cycles; the last cycle has one extra leap year.
  let n := d / daysPer100Years
  let n := n - n / 4   -- n -= n >> 2
  let y := y + 100 * n
  let d := d - daysPer100Years * n
  -- Cut off 4-year cycles.
  let n := d / daysPer4Years
  let y := y + 4 * n
  let d := d - daysPer4Years * n
  -- Cut off years within a 4-year cycle.
  let n := d / 365
  let n := n - n / 4   -- n -= n >> 2
  let y := y + n
  let d := d - 365 * n
  (y + absoluteZeroYear, d)

/-- The second half of Go `absDate` (`full = true`): month and day of the
month from the year and the zero-based day of the year. -/
def monthDay (year yday : Int) : Int × Int :=
  if isLeap year && yday = 31 + 29 - 1 then
    -- Leap day.
    (2, 29)
  else
    -- After leap day; pretend it wasn't there.
    let day := if isLeap year && yday > 31 + 29 - 1 then yday - 1 else yday
    -- Estimate month on assumption that every month has 31 days.
    let month := day / 31
    let endd := daysBeforeAt (month + 1)
    let (month, begin) :=
      if day ≥ endd then (month + 1, endd) else (month, daysBeforeAt month)
    (month + 1, day - begin + 1)

/-- Go `absDate` with `full = true`: `(year, month, day, yday)`. -/
def absDate (abs : Int) : Int × Int × Int × Int :=
  let (year, yday) := absYearDay abs
  let (month, day) := monthDay year yday
  (year, month, day, yday)

/-- Go `Time.Date`: the year, month and day in which `t` occurs. -/
def Time.Date (t : Time) : Int × Int × Int :=
  let (year, month, day, _) := absDate t.abs
  (year, month, day)

/-- Go `time.Date(year, month, day, hour, min, sec, nsec, time.UTC)`.  All
calls in the program pass `time.UTC`. -/
def Date (year month day hour min sec nsec : Int) : Time :=
  -- Normalize month, overflowing into year.
  let m := month - 1
  let (year, m) := norm year m 12
  let month := m + 1
  -- Normalize nsec, sec, min, hour, overflowing into day.
  let (sec, nsec) := norm sec nsec 1000000000
  let (min, sec) := norm min sec 60
  let (hour, min) := norm hour min 60
  let (day, hour) := norm day hour 24
  -- Compute days since the absolute epoch.
  let d := daysSinceEpoch year
  -- Add in days before this month.
  let d := d + daysBeforeAt (month - 1)
  let d := if isLeap year && month ≥ 3 then d + 1 else d
  -- Add in days before today.
  let d := d + (day - 1)
  -- Add in time elapsed today.
  let abs := d * secondsPerDay
  let abs := abs + (hour * secondsPerHour + min * secondsPerMinute + sec)
  ⟨abs + absoluteToInternal, nsec, .UTC⟩

def minDuration : Int := -(2 ^ 63)
def maxDuration : Int := 2 ^ 63 - 1

/-- Go `Time.Sub`: the duration `t - u` in nanoseconds, saturated to the
range of `int64`. -/
def Time.Sub (t u : Time) : Int :=
  let d := (t.sec - u.sec) * 1000000000 + (t.nsec - u.nsec)
  if minDuration ≤ d ∧ d ≤ maxDuration then d
  else if d < 0 then minDuration
  else maxDuration

/-- One hour in nanoseconds (`time.Hour`). -/
def Hour : Int := 60 * 60 * 1000000000

/-- Go `Duration.Hours`, a `float64`, as an exact rational.  When `d` is a
whole number of hours the Go result is that integer exactly, and so are its
quotient by 24 and the floor of the quotient in the handler. -/
def Hours (d : Int) : ℚ :=
  let hour := Int.tdiv d Hour
  let nsec := Int.tmod d Hour
  (hour : ℚ) + (nsec : ℚ) / (60 * 60 * 1000000000)

end GoTime

namespace GoStrings

/-! ## Package `strings` -/

/-- Go `trimLeftByte`. -/
def trimLeftByte : List Char → Char → List Char
  | [], _ => []
  | x :: s, c => if x = c then trimLeftByte s c else x :: s

/-- Go `trimRightByte`. -/
def trimRightByte (s : List Char) (c : Char) : List Char :=
  (trimLeftByte s.reverse c).reverse

/-- Go `strings.Trim(s, cutset)` for a cutset of one ASCII byte: all leading
and trailing occurrences of `c` are removed. -/
def Trim (s : List Char) (c : Char) : List Char :=
  trimLeftByte (trimRightByte s c) c

/-- Go `strings.Split(s, sep)` for a separator of one byte: the substrings
between the occurrences of `sep`, in order. -/
def Split : List Char → Char → List (List Char)
  | [], _ => [[]]
  | x :: s, sep =>
    if x = sep then [] :: Split s sep
    else
      match Split s sep with
      | [] => [[x]]
      | a :: rest => (x :: a) :: rest

end GoStrings

namespace GoTime

/-! ## Package `time`: parsing and formatting with the layout `2006-01-02` -/

/-- Why `time.Parse` failed (a `*time.ParseError`). -/
inductive ParseError where
  | bad          -- the value does not match the layout
  | monthRange   -- "month out of range"
  | dayRange     -- "day out of range"
  | extraText    -- "extra text" after the value
deriving DecidableEq, Repr

/-- Go `isDigit`: is byte `i` of `s` a decimal digit (`'0' <= c && c <= '9'`)? -/
def isDigit (s : List Char) (i : Nat) : Bool :=
  match s.get? i with
  | none => false
  | some c => '0'.toNat ≤ c.toNat && c.toNat ≤ '9'.toNat

/-- Go `leadingInt`: the decimal number at the start of `s` and the rest of
`s`.  (The overflow test of the Go function needs 19 digits or more.) -/
def leadingInt : List Char → Int → Int × List Char
  | [], x => (x, [])
  | c :: s, x =>
    if c.toNat < '0'.toNat || c.toNat > '9'.toNat then (x, c :: s)
    else leadingInt s (x * 10 + ((c.toNat - '0'.toNat : Nat) : Int))

/-- Go `atoi`: the whole of `s` as a signed decimal number. -/
def atoi (s : List Char) : Option Int :=
  let (neg, s) :=
    match s with
    | [] => (false, [])
    | c :: r =>
      if c = '-' then (true, r)
      else if c = '+' then (false, r)
      else (false, c :: r)
  let (q, rem) := leadingInt s 0
  if rem ≠ [] then none
  else some (if neg then -q else q)

/-- Go `getnum(s, fixed)` with `fixed = true`: exactly two digits. -/
def getnum (s : List Char) : Option (Int × List Char) :=
  if !isDigit s 0 then none
  else if !isDigit s 1 then none
  else
    match s with
    | a :: b :: rest =>
      some ((((a.toNat - '0'.toNat) * 10 + (b.toNat - '0'.toNat) : Nat) : Int), rest)
    | _ => none

/-- Go `skip(value, prefix)` for the one-byte prefix `-`. -/
def skip (value : List Char) : Option (List Char) :=
  match value with
  | [] => none
  | c :: rest => if c = '-' then some rest else none

/-- Go `time.Parse("2006-01-02", value)`.  The layout splits into the chunks
`2006` (four-digit year), `-01` (two-digit month), `-02` (two-digit day); hour,
minute, second and nanosecond stay zero and the zone is UTC.  As in Go the
result is `(t, nil)` or `(Time{}, err)`. -/
def Parse (value : List Char) : Time × Option ParseError :=
  -- stdLongYear
  if value.length < 4 || !isDigit value 0 then (Time.zero, some .bad)
  else
    let p := value.take 4
    let value := value.drop 4
    match atoi p with
    | none => (Time.zero, some .bad)
    | some year =>
      -- "-" stdZeroMonth
      match skip value with
      | none => (Time.zero, some .bad)
      | some value =>
        match getnum value with
        | none => (Time.zero, some .bad)
        | some (month, value) =>
          if month ≤ 0 || 12 < month then (Time.zero, some .monthRange)
          else
            -- "-" stdZeroDay
            match skip value with
            | none => (Time.zero, some .bad)
            | some value =>
              match getnum value with
              | none => (Time.zero, some .bad)
              | some (day, value) =>
                -- end of layout
                if value.length ≠ 0 then (Time.zero, some .extraText)
                -- Validate the day of the month.
                else if day < 1 || day > daysIn month year then (Time.zero, some .dayRange)
                else (Date year month day 0 0 0 0, none)

/-- The decimal digits of `u`, most significant first, put in front of `buf`:
the loop of Go `appendInt` filling its 20-byte buffer from the right.  A
64-bit value has at most 20 digits, so the loop runs at most 19 times. -/
def digits : Nat → Nat → List Char → List Char
  | 0, u, buf => Char.ofNat ('0'.toNat + u % 10) :: buf
  | fuel + 1, u, buf =>
    if u ≥ 10 then digits fuel (u / 10) (Char.ofNat ('0'.toNat + u % 10) :: buf)
    else Char.ofNat ('0'.toNat + u) :: buf

/-- Go `appendInt(b, x, width)`: `x` in decimal, zero-padded to `width`. -/
def appendInt (b : List Char) (x : Int) (width : Nat) : List Char :=
  let b := if x < 0 then b ++ ['-'] else b
  let u := x.natAbs
  let ds := digits 19 u []
  b ++ List.replicate (width - ds.length) '0' ++ ds

/-- Go `Time.Format("2006-01-02")`. -/
def Time.Format (t : Time) : List Char :=
  let (year, month, day, _) := absDate t.abs
  let b := appendInt [] year 4
  let b := b ++ ['-']
  let b := appendInt b month 2
  let b := b ++ ['-']
  appendInt b day 2

end GoTime

namespace Models

open GoTime GoStrings

/-! ## Package `models` (`pkg/models/db.go`) -/

/-- `type BirthDate time.Time`. -/
abbrev BirthDate := Time

/-- `BirthDate.UnmarshalJSON`: the receiver after the call and the error. -/
def BirthDate.UnmarshalJSON (bd : BirthDate) (b : List Char) : BirthDate × Option ParseError :=
  let s := Trim b '"'
  match Parse s with
  | (_, some err) => (bd, some err)
  | (t, none) => (t, none)

/-- `BirthDate.MarshalJSON`: the bytes and the (always nil) error. -/
def BirthDate.MarshalJSON (bd : BirthDate) : List Char × Option ParseError :=
  (['"'] ++ Time.Format bd ++ ['"'], none)

/-- `BirthDate.Format(s)` for the layout `dateISO`, the only one it is called with. -/
def BirthDate.Format (bd : BirthDate) : List Char :=
  Time.Format bd

/-- `BirthDate.String`, which is `bd.Format(dateISO)`. -/
def BirthDate.String (bd : BirthDate) : List Char :=
  BirthDate.Format bd

/-- A `driver.Value`: what a database driver may hand to a scanner. -/
inductive DriverValue where
  | null
  | int64 (i : Int)
  | float64 (f : ℚ)
  | bool (b : Bool)
  | bytes (b : List Char)
  | string (s : List Char)
  | time (t : Time)
deriving DecidableEq

/-- How a call ends: it returns, or the goroutine panics. -/
inductive Run (α : Type) where
  | ret (a : α)
  | panic
deriving DecidableEq

/-- `BirthDate.Scan`: the receiver after the call and the error.  The type
assertion `v.(string)` panics unless `v` holds a string; indexing the result
of `strings.Split` with `0` panics on an empty slice. -/
def BirthDate.Scan (bd : BirthDate) (v : DriverValue) : Run (BirthDate × Option ParseError) :=
  match v with
  | .string s =>
    match Split s ' ' with
    | [] => .panic
    | first :: _ =>
      match Parse first with
      | (_, some err) => .ret (bd, some err)
      | (t, none) => .ret (t, none)
  | _ => .panic

/-- `BirthDate.Value`. -/
def BirthDate.Value (bd : BirthDate) : DriverValue × Option ParseError :=
  (.time bd, none)

/-- `Person` with the fields of the embedded `gorm.Model`.  The tag
`gorm:"UNIQUE_INDEX"` on `Name` is the unique index of the table. -/
structure Person where
  ID : Nat := 0
  CreatedAt : Time := Time.zero
  UpdatedAt : Time := Time.zero
  DeletedAt : Option Time := none
  Name : String := ""
  BirthDate : BirthDate := Time.zero
deriving DecidableEq

end Models

namespace Conf

open GoTime GoStrings Models

/-! ## The storage layer as the handlers use it -/

/-- The table behind `*gorm.DB`: its physical rows in the order a query
returns them (soft-deleted rows included, columns already decoded) and the last
key handed out by auto-increment. -/
structure DB where
  rows : List Person
  seq : Nat
deriving DecidableEq

/-- The unique index on `name`: no two rows carry the same name. -/
def namesUnique (rows : List Person) : Prop := (rows.map (fun r => r.Name)).Nodup

/-- The primary key: no two rows carry the same `ID`. -/
def idsUnique (rows : List Person) : Prop := (rows.map (fun r => r.ID)).Nodup

instance : DecidablePred namesUnique :=
  fun rows => List.nodupDecidable (rows.map (fun (r : Person) => r.Name))

instance : DecidablePred idsUnique :=
  fun rows => List.nodupDecidable (rows.map (fun (r : Person) => r.ID))

/-- The constraints the table has by construction: the unique index on `name`,
the primary key, and the auto-increment counter at or above every key. -/
def DB.wellFormed (db : DB) : Prop :=
  namesUnique db.rows ∧ idsUnique db.rows ∧ ∀ r ∈ db.rows, r.ID ≤ db.seq

instance : DecidablePred DB.wellFormed :=
  fun db => inferInstanceAs
    (Decidable (namesUnique db.rows ∧ idsUnique db.rows ∧ ∀ r ∈ db.rows, r.ID ≤ db.seq))

/-- The number of rows that carry `name`. -/
def DB.rowsNamed (db : DB) (name : String) : Nat :=
  (db.rows.map (fun r => r.Name)).count name

/-- The rows selected by `db.Where(&models.Person{Name: name})`: a struct
condition uses the non-zero fields only, so an empty name selects every row;
rows with `deleted_at` set are never selected. -/
def whereName (db : DB) (name : String) : List Person :=
  db.rows.filter (fun r => r.DeletedAt = none ∧ (name = "" ∨ r.Name = name))

/-- The row with the least `ID` (`ORDER BY id ASC LIMIT 1`). -/
def leastID : List Person → Option Person
  | [] => none
  | r :: rs =>
    match leastID rs with
    | none => some r
    | some m => if r.ID ≤ m.ID then some r else some m

/-- `db.Where(&person).First(&person)` for `person = Person{Name: name}`: the
struct after the call.  It is left as it was when no row is found. -/
def First (db : DB) (person : Person) : Person :=
  match leastID (whereName db person.Name) with
  | none => person
  | some r => r

/-- `db.Where(&person).Find(&person).Count(&c)` for `person = Person{Name: name}`:
every selected row is scanned into the one struct, so the last one stays; the
count is zero exactly when no row was selected. -/
def FindCount (db : DB) (person : Person) : Person × Nat :=
  match (whereName db person.Name).getLast? with
  | none => (person, 0)
  | some r => (r, ((whereName db person.Name).filter (fun q => q.ID = r.ID)).length)

/-- `INSERT`: a zero `ID` is replaced by the next auto-increment key, blank
time stamps are set to `now`; the statement fails, changing nothing, when it
would break the primary key or the unique index on `name`. -/
def create (db : DB) (p : Person) (now : Time) : DB :=
  let p := { p with
    CreatedAt := if p.CreatedAt = Time.zero then now else p.CreatedAt
    UpdatedAt := if p.UpdatedAt = Time.zero then now else p.UpdatedAt }
  let id := if p.ID = 0 then db.seq + 1 else p.ID
  let rows := db.rows ++ [{ p with ID := id }]
  if namesUnique rows ∧ idsUnique rows then ⟨rows, max db.seq id⟩ else db

/-- `UPDATE ... WHERE deleted_at IS NULL AND id = ?` with every column of `p`:
the table after the statement, the number of rows affected and whether the
statement failed (on the unique index), in which case nothing changes. -/
def update (db : DB) (p : Person) (now : Time) : DB × Nat × Bool :=
  let p := { p with UpdatedAt := now }
  let hit := fun (r : Person) => r.DeletedAt = none ∧ r.ID = p.ID
  let rows := db.rows.map (fun r => if hit r then p else r)
  if namesUnique rows then (⟨rows, db.seq⟩, (db.rows.filter hit).length, false)
  else (db, 0, true)

/-- `db.Save(&person)` of gorm: with a non-zero primary key it updates, and
when no row is affected it creates; with a zero primary key it inserts. -/
def Save (db : DB) (p : Person) (now : Time) : DB :=
  if p.ID ≠ 0 then
    match update db p now with
    | (db1, affected, failed) =>
      if !failed && affected = 0 then create db p now else db1
  else create db p now

/-! ## The request body as `encoding/json` hands it to the struct -/

/-- What a JSON value does to a struct field of another type than `BirthDate`:
it sets the field, leaves it (`null` on a non-pointer field), or does not fit
the field's type. -/
inductive FieldValue (α : Type) where
  | set (a : α)
  | keep
  | mismatch
deriving DecidableEq

/-- One member of the JSON object of the body, after `encoding/json` has
matched its key against the fields of `Person` (exactly, else ignoring case):
`dateOfBirth` carries the raw text of its value, which goes to
`BirthDate.UnmarshalJSON`; a key matching no field is skipped. -/
inductive Member where
  | dateOfBirth (raw : List Char)
  | name (v : FieldValue String)
  | id (v : FieldValue Nat)
  | createdAt (v : FieldValue Time)
  | updatedAt (v : FieldValue Time)
  | deletedAt (v : FieldValue (Option Time))
  | other
deriving DecidableEq

/-- The member is `dateOfBirth`, or its key matches no field of `Person`. -/
def Member.birthOnly : Member → Bool
  | .dateOfBirth _ => true
  | .other => true
  | _ => false

/-- The request body: not valid JSON, a JSON value that is not an object
(`null` apart), `null`, or an object. -/
inductive Body where
  | malformed
  | notObject
  | null
  | object (members : List Member)
deriving DecidableEq

/-- The error of `Decode`. -/
inductive DecodeError where
  | malformed
  | typeMismatch
  | unmarshal (err : ParseError)
deriving DecidableEq

/-- Storing one field: a value that does not fit is recorded as the error to
return, unless one is recorded already, and decoding goes on. -/
def storeField {α : Type} (v : FieldValue α) (old : α) (saved : Option DecodeError) :
    α × Option DecodeError :=
  match v with
  | .set a => (a, saved)
  | .keep => (old, saved)
  | .mismatch => (old, if saved = none then some .typeMismatch else saved)

/-- Decoding the members of an object into `person`, in order.  An error of
`BirthDate.UnmarshalJSON` ends the decoding at once. -/
def decodeObject : List Member → Person → Option DecodeError → Person × Option DecodeError
  | [], p, saved => (p, saved)
  | m :: ms, p, saved =>
    match m with
    | .dateOfBirth raw =>
      match BirthDate.UnmarshalJSON p.BirthDate raw with
      | (_, some err) => (p, some (.unmarshal err))
      | (bd, none) => decodeObject ms { p with BirthDate := bd } saved
    | .name v =>
      let (a, saved) := storeField v p.Name saved
      decodeObject ms { p with Name := a } saved
    | .id v =>
      let (a, saved) := storeField v p.ID saved
      decodeObject ms { p with ID := a } saved
    | .createdAt v =>
      let (a, saved) := storeField v p.CreatedAt saved
      decodeObject ms { p with CreatedAt := a } saved
    | .updatedAt v =>
      let (a, saved) := storeField v p.UpdatedAt saved
      decodeObject ms { p with UpdatedAt := a } saved
    | .deletedAt v =>
      let (a, saved) := storeField v p.DeletedAt saved
      decodeObject ms { p with DeletedAt := a } saved
    | .other => decodeObject ms p saved

/-- `json.NewDecoder(r.Body).Decode(&person)`: the struct after the call and
the error. -/
def Decode (body : Body) (person : Person) : Person × Option DecodeError :=
  match body with
  | .malformed => (person, some .malformed)
  | .notObject => (person, some .typeMismatch)
  | .null => (person, none)
  | .object members => decodeObject members person none

/-! ## Package `conf` (`pkg/conf/handlers.go`) -/

/-- What a handler wrote: the status code, the `Content-Type` header if set,
and the JSON object of the body as key and value, if any. -/
structure Response where
  code : Nat
  contentType : Option String
  payload : Option (String × String)
deriving DecidableEq

/-- `respondWithJSON` for a payload of one key. -/
def respondWithJSON (code : Nat) (payload : String × String) : Response :=
  ⟨code, some "application/json", some payload⟩

/-- `respondWithError`. -/
def respondWithError (code : Nat) (message : String) : Response :=
  respondWithJSON code ("error", message)

def StatusOK : Nat := 200
def StatusNoContent : Nat := 204
def StatusBadRequest : Nat := 400
def StatusNotFound : Nat := 404

/-- The text of a decode error (`err.Error()`); only that there is one matters. -/
def DecodeError.Error : DecodeError → String
  | .malformed => "invalid character"
  | .typeMismatch => "json: cannot unmarshal"
  | .unmarshal _ => "parsing time"

/-- The local `by` of `BirthdayMessage` after the `switch`: next year when
the birthday has passed this year (`bd < td && bm == tm`, or `bm < tm`), else
this year. -/
def chosenYear (birth : BirthDate) (now : Time) : Int :=
  let (_, bm, bd) := Time.Date birth
  let (ty, tm, td) := Time.Date now
  if (bd < td && bm = tm) || bm < tm then ty + 1 else ty

/-- The local `db` of `BirthdayMessage`: `time.Date(by, bm, bd, 0, 0, 0, 0, time.UTC)`. -/
def nextBirthday (birth : BirthDate) (now : Time) : Time :=
  let (_, bm, bd) := Time.Date birth
  Date (chosenYear birth now) bm bd 0 0 0 0

/-- The local `dt` of `BirthdayMessage`: `time.Date(ty, tm, td, 0, 0, 0, 0, time.UTC)`. -/
def todayMidnight (now : Time) : Time :=
  let (ty, tm, td) := Time.Date now
  Date ty tm td 0 0 0 0

/-- The local `dd` of `BirthdayMessage`:
`int(math.Floor(db.Sub(dt).Hours() / 24))`. -/
def dayDifference (birth : BirthDate) (now : Time) : Int :=
  Int.floor (Hours ((nextBirthday birth now).Sub (todayMidnight now)) / 24)

/-- `BirthdayMessage`: the handler of `GET /{Name}` for the captured `name`,
the table `db` and the value `now` of `time.Now()`. -/
def BirthdayMessage (db : DB) (now : Time) (name : String) : Response :=
  let person : Person := { Name := name }
  let (person, c) := FindCount db person
  if c = 0 then respondWithError StatusNotFound "Name not found"
  else
    let dd := dayDifference person.BirthDate now
    let resp :=
      if dd = 0 then ("message", "Hi, " ++ person.Name ++ "! Happy birthday!")
      else if dd = 5 then
        ("message", "Hi, " ++ person.Name ++ "! Your birtday is in " ++ toString dd ++ " days!")
      else ("message", "Hi, " ++ person.Name ++ "!")
    respondWithJSON StatusOK resp

/-- `PersonsBirthday`: the handler of `PUT /{Name}`; the table after the
request and the response. -/
def PersonsBirthday (db : DB) (now : Time) (name : String) (body : Body) : DB × Response :=
  let person : Person := { Name := name }
  -- Finding existing person
  let person := First db person
  -- Adding birthday
  match Decode body person with
  | (_, some err) => (db, respondWithError StatusBadRequest err.Error)
  | (person, none) =>
    -- Create / Update person
    (Save db person now, ⟨StatusNoContent, none, none⟩)

end Conf

namespace Calendar

/-! ## The Gregorian calendar and the ISO date text, as the specification reads them -/

/-- Leap years of the Gregorian calendar. -/
def leapYear (y : Int) : Prop := y % 4 = 0 ∧ (y % 100 ≠ 0 ∨ y % 400 = 0)

instance : DecidablePred leapYear :=
  fun y => inferInstanceAs (Decidable (y % 4 = 0 ∧ (y % 100 ≠ 0 ∨ y % 400 = 0)))

/-- The number of days of month `m` in year `y`. -/
def monthLength (y m : Int) : Int :=
  if m = 2 then (if leapYear y then 29 else 28)
  else if m = 4 ∨ m = 6 ∨ m = 9 ∨ m = 11 then 30
  else 31

/-- The triple `(y, m, d)` is a date of the Gregorian calendar. -/
def validDate (y m d : Int) : Prop :=
  1 ≤ m ∧ m ≤ 12 ∧ 1 ≤ d ∧ d ≤ monthLength y m

instance (y m d : Int) : Decidable (validDate y m d) :=
  inferInstanceAs (Decidable (1 ≤ m ∧ m ≤ 12 ∧ 1 ≤ d ∧ d ≤ monthLength y m))

/-- The calendar day after `(y, m, d)`. -/
def nextDay : Int × Int × Int → Int × Int × Int
  | (y, m, d) =>
    if d < monthLength y m then (y, m, d + 1)
    else if m < 12 then (y, m + 1, 1)
    else (y + 1, 1, 1)

/-- The calendar day `k` days after a date: "`k` whole days ahead". -/
def daysAhead (k : Nat) (date : Int × Int × Int) : Int × Int × Int :=
  Nat.iterate nextDay k date

/-- The triple is a date of the Gregorian calendar. -/
def isDate (date : Int × Int × Int) : Prop := validDate date.1 date.2.1 date.2.2

instance (date : Int × Int × Int) : Decidable (isDate date) :=
  inferInstanceAs (Decidable (validDate date.1 date.2.1 date.2.2))

/-- The next occurrence of the month and day of `birth` relative to `today`, as
the message rule reads it: this year's, or next year's when this year's has
already passed. -/
def nextOccurrence (birth today : Int × Int × Int) : Int × Int × Int :=
  let (_, bm, bd) := birth
  let (ty, tm, td) := today
  if bm < tm ∨ (bm = tm ∧ bd < td) then (ty + 1, bm, bd) else (ty, bm, bd)

/-- A decimal digit. -/
def digit (c : Char) : Prop := '0'.toNat ≤ c.toNat ∧ c.toNat ≤ '9'.toNat

instance : DecidablePred digit :=
  fun c => inferInstanceAs (Decidable ('0'.toNat ≤ c.toNat ∧ c.toNat ≤ '9'.toNat))

/-- The value of a decimal digit. -/
def digitValue (c : Char) : Int := ((c.toNat - '0'.toNat : Nat) : Int)

/-- The fields of a text of the shape `YYYY-MM-DD`: ten characters, digits
except for the two hyphens. -/
def isoFields : List Char → Option (Int × Int × Int)
  | [y1, y2, y3, y4, h1, m1, m2, h2, d1, d2] =>
    if digit y1 ∧ digit y2 ∧ digit y3 ∧ digit y4 ∧ h1 = '-' ∧ digit m1 ∧ digit m2 ∧ h2 = '-' ∧
        digit d1 ∧ digit d2 then
      some (1000 * digitValue y1 + 100 * digitValue y2 + 10 * digitValue y3 + digitValue y4,
            10 * digitValue m1 + digitValue m2,
            10 * digitValue d1 + digitValue d2)
    else none
  | _ => none

/-- A valid ISO date string: of the shape `YYYY-MM-DD` and naming a date of
the calendar. -/
def isISODate (s : List Char) : Prop :=
  match isoFields s with
  | some (y, m, d) => validDate y m d
  | none => False

instance : DecidablePred isISODate := fun s =>
  match h : isoFields s with
  | some (y, m, d) => decidable_of_iff (validDate y m d) (by simp [isISODate, h])
  | none => isFalse (by simp [isISODate, h])

/-- The character of a decimal digit `0..9`. -/
def digitChar (n : Int) : Char := Char.ofNat ('0'.toNat + n.toNat)

/-- The text `YYYY-MM-DD` of a date, zero-padded, for a year of `0..9999`. -/
def isoText (y m d : Int) : List Char :=
  [digitChar (y / 1000), digitChar (y / 100 % 10), digitChar (y / 10 % 10), digitChar (y % 10),
   '-', digitChar (m / 10), digitChar (m % 10),
   '-', digitChar (d / 10), digitChar (d % 10)]

/-- The part of a text before its first space (all of it when it has none). -/
def beforeSpace (v : List Char) : List Char := v.takeWhile (fun c => c ≠ ' ')

end Calendar

namespace Examples

open GoTime Models Conf

/-! ## Example data -/

/-- A table that holds one person. -/
def table (p : Person) : DB := ⟨[p], p.ID⟩

def alice : Person := { ID := 1, Name := "Alice", BirthDate := Date 1990 6 15 0 0 0 0 }

def dan : Person := { ID := 1, Name := "Dan", BirthDate := Date 1990 1 5 0 0 0 0 }

/-- The empty table. -/
def emptyTable : DB := ⟨[], 0⟩

/-- The time of the requests in the examples. -/
def noon : Time := Date 2020 6 15 12 0 0 0

/-- The body `{"dateOfBirth":"1990-06-15"}`. -/
def birthBody : Body := .object [.dateOfBirth "\"1990-06-15\"".toList]

/-- The body `{"name":"Bob","dateOfBirth":"1990-06-15"}`. -/
def renameBody : Body := .object [.name (.set "Bob"), .dateOfBirth "\"1990-06-15\"".toList]

/-- The body `{"dateOfBirth":"15/06/1990"}`. -/
def slashBody : Body := .object [.dateOfBirth "\"15/06/1990\"".toList]

/-- A person born on a leap day. -/
def lea : Person := { ID := 1, Name := "Lea", BirthDate := Date 2000 2 29 0 0 0 0 }

end Examples

namespace GoTime

/-! ## Quantities used in the proofs -/

/-- The day number that `Date` computes for a date with month in `1..12`. -/
def dayNumber (y m d : Int) : Int :=
  daysSinceEpoch y + daysBeforeAt (m - 1) + (if isLeap y = true ∧ m ≥ 3 then 1 else 0) + (d - 1)

/-- The zero-based day of the year of a date with month in `1..12`. -/
def yearDay (y m d : Int) : Int :=
  daysBeforeAt (m - 1) + (if isLeap y = true ∧ m ≥ 3 then 1 else 0) + (d - 1)

/-- The day of the year with a leap day that has passed taken out. -/
def commonDay (y k : Int) : Int := if isLeap y = true ∧ k > 59 then k - 1 else k

open Calendar

/-! ## Calendar arithmetic of package `time` -/

theorem isLeap_iff (y : Int) :
    isLeap y = true ↔ (y % 4 = 0 ∧ (y % 100 ≠ 0 ∨ y % 400 = 0)) := by
  simp [isLeap]

theorem isLeap_false_iff (y : Int) :
    isLeap y = false ↔ ¬ (y % 4 = 0 ∧ (y % 100 ≠ 0 ∨ y % 400 = 0)) := by
  rw [← isLeap_iff]; simp

theorem secondsPerDay_eq : secondsPerDay = 86400 := by decide
theorem daysPer400Years_eq : daysPer400Years = 146097 := by decide
theorem daysPer100Years_eq : daysPer100Years = 36524 := by decide
theorem daysPer4Years_eq : daysPer4Years = 1461 := by decide

theorem absYearDay_cycles (a b c e k s : Int)
    (hb : 0 ≤ b ∧ b ≤ 3) (hc : 0 ≤ c ∧ c ≤ 24) (he : 0 ≤ e ∧ e ≤ 3) (hk : 0 ≤ k)
    (hk1 : k ≤ 365) (hk2 : k = 365 → e = 3 ∧ (c ≠ 24 ∨ b = 3))
    (hs : 0 ≤ s ∧ s < 86400) :
    absYearDay ((146097 * a + 36524 * b + 1461 * c + 365 * e + k) * 86400 + s)
      = (400 * a + 100 * b + 4 * c + e + absoluteZeroYear, k) := by
  have h1 : ((146097 * a + 36524 * b + 1461 * c + 365 * e + k) * 86400 + s) / secondsPerDay
      = 146097 * a + 36524 * b + 1461 * c + 365 * e + k := by
    rw [secondsPerDay_eq]; omega
  have h2 : (146097 * a + 36524 * b + 1461 * c + 365 * e + k) / daysPer400Years = a := by
    rw [daysPer400Years_eq]; omega
  have h3 : (146097 * a + 36524 * b + 1461 * c + 365 * e + k) - daysPer400Years * a
      = 36524 * b + 1461 * c + 365 * e + k := by
    rw [daysPer400Years_eq]; omega
  have h4 : (36524 * b + 1461 * c + 365 * e + k) / daysPer100Years
      - (36524 * b + 1461 * c + 365 * e + k) / daysPer100Years / 4 = b := by
    rw [daysPer100Years_eq]
    have hr : 1461 * c + 365 * e + k ≤ 36524 := by omega
    by_cases hmax : 1461 * c + 365 * e + k = 36524
    · have hb3 : b = 3 := by
        have hk365 : k = 365 := by omega
        have hc24 : c = 24 := by omega
        have := hk2 hk365
        omega
      subst hb3
      have : 36524 * 3 + 1461 * c + 365 * e + k = 146096 := by omega
      rw [this]; decide
    · have : (36524 * b + 1461 * c + 365 * e + k) / 36524 = b := by omega
      rw [this]; omega
  have h5 : (36524 * b + 1461 * c + 365 * e + k) - daysPer100Years * b
      = 1461 * c + 365 * e + k := by
    rw [daysPer100Years_eq]; omega
  have h6 : (1461 * c + 365 * e + k) / daysPer4Years = c := by
    rw [daysPer4Years_eq]; omega
  have h7 : (1461 * c + 365 * e + k) - daysPer4Years * c = 365 * e + k := by
    rw [daysPer4Years_eq]; omega
  have h8 : (365 * e + k) / 365 - (365 * e + k) / 365 / 4 = e := by
    by_cases hmax : k = 365
    · have he3 : e = 3 := (hk2 hmax).1
      subst he3; subst hmax; decide
    · have : (365 * e + k) / 365 = e := by omega
      rw [this]; omega
  have h9 : (365 * e + k) - 365 * e = k := by omega
  simp only [absYearDay, h1, h2, h3, h4, h5, h6, h7, h8, h9]

theorem daysSinceEpoch_cycles (y : Int) :
    ∃ a b c e : Int, (0 ≤ b ∧ b ≤ 3) ∧ (0 ≤ c ∧ c ≤ 24) ∧ (0 ≤ e ∧ e ≤ 3) ∧
      y = 400 * a + 100 * b + 4 * c + e + absoluteZeroYear ∧
      daysSinceEpoch y = 146097 * a + 36524 * b + 1461 * c + 365 * e ∧
      (isLeap y = true ↔ e = 3 ∧ (c ≠ 24 ∨ b = 3)) := by
  refine ⟨(y - absoluteZeroYear) / 400, (y - absoluteZeroYear) % 400 / 100,
    (y - absoluteZeroYear) % 100 / 4, (y - absoluteZeroYear) % 4, ?_, ?_, ?_, ?_, ?_, ?_⟩
  · simp only [absoluteZeroYear]; omega
  · simp only [absoluteZeroYear]; omega
  · simp only [absoluteZeroYear]; omega
  · simp only [absoluteZeroYear]; omega
  · simp only [daysSinceEpoch, absoluteZeroYear, daysPer400Years_eq, daysPer100Years_eq, daysPer4Years_eq]
    omega
  · rw [isLeap_iff]
    simp only [absoluteZeroYear]; omega

theorem absYearDay_of (y k s : Int) (hk : 0 ≤ k)
    (hk1 : k < (if isLeap y = true then 366 else 365)) (hs : 0 ≤ s) (hs1 : s < 86400) :
    absYearDay ((daysSinceEpoch y + k) * 86400 + s) = (y, k) := by
  obtain ⟨a, b, c, e, hb, hc, he, hy, hd, hl⟩ := daysSinceEpoch_cycles y
  rw [hd]
  have := absYearDay_cycles a b c e k s hb hc he hk (by split at hk1 <;> omega)
    (by
      intro h365
      by_cases h : isLeap y = true
      · exact hl.mp h
      · rw [if_neg h] at hk1; omega)
    ⟨hs, hs1⟩
  rw [this, ← hy]

theorem daysSinceEpoch_succ (y : Int) :
    daysSinceEpoch (y + 1) = daysSinceEpoch y + (if isLeap y = true then 366 else 365) := by
  by_cases h : isLeap y = true
  · rw [if_pos h]
    rw [isLeap_iff] at h
    simp only [daysSinceEpoch, absoluteZeroYear, daysPer400Years_eq, daysPer100Years_eq, daysPer4Years_eq]
    omega
  · rw [if_neg h]
    rw [Bool.not_eq_true, isLeap_false_iff] at h
    simp only [daysSinceEpoch, absoluteZeroYear, daysPer400Years_eq, daysPer100Years_eq, daysPer4Years_eq]
    omega

theorem isLeap_eq_leapYear (y : Int) : isLeap y = true ↔ leapYear y := isLeap_iff y

theorem daysBeforeAt_vals :
    daysBeforeAt 0 = 0 ∧ daysBeforeAt 1 = 31 ∧ daysBeforeAt 2 = 59 ∧ daysBeforeAt 3 = 90 ∧
    daysBeforeAt 4 = 120 ∧ daysBeforeAt 5 = 151 ∧ daysBeforeAt 6 = 181 ∧ daysBeforeAt 7 = 212 ∧
    daysBeforeAt 8 = 243 ∧ daysBeforeAt 9 = 273 ∧ daysBeforeAt 10 = 304 ∧ daysBeforeAt 11 = 334 ∧
    daysBeforeAt 12 = 365 := by decide

theorem daysIn_eq (y m : Int) (h1 : 1 ≤ m) (h2 : m ≤ 12) : daysIn m y = monthLength y m := by
  obtain ⟨v0, v1, v2, v3, v4, v5, v6, v7, v8, v9, v10, v11, v12⟩ := daysBeforeAt_vals
  unfold daysIn monthLength
  by_cases hl : isLeap y = true
  · have hl2 : leapYear y := (isLeap_eq_leapYear y).mp hl
    interval_cases m <;> simp [hl, hl2, v0, v1, v2, v3, v4, v5, v6, v7, v8, v9, v10, v11, v12]
  · have hl2 : ¬ leapYear y := fun h => hl ((isLeap_eq_leapYear y).mpr h)
    interval_cases m <;> simp [hl, hl2, v0, v1, v2, v3, v4, v5, v6, v7, v8, v9, v10, v11, v12]

theorem norm_id (hi lo base : Int) (h0 : 0 ≤ lo) (h1 : lo < base) : norm hi lo base = (hi, lo) := by
  unfold norm
  simp only [show ¬ lo < 0 by omega, if_false, show ¬ lo ≥ base by omega]

theorem norm_zero (hi base : Int) (h1 : 0 < base) : norm hi 0 base = (hi, 0) :=
  norm_id hi 0 base (le_refl 0) h1

theorem Date_midnight (y m d : Int) (h1 : 1 ≤ m) (h2 : m ≤ 12) :
    Date y m d 0 0 0 0 = ⟨dayNumber y m d * 86400 + absoluteToInternal, 0, .UTC⟩ := by
  have e1 := norm_id y (m - 1) 12 (by omega) (by omega)
  have e2 := norm_zero 0 1000000000 (by omega)
  have e3 := norm_zero 0 60 (by omega)
  have e4 := norm_zero d 24 (by omega)
  unfold Date
  simp only [e1, e2, e3, e4]
  simp only [dayNumber, secondsPerDay_eq, show m - 1 + 1 = m by omega, Bool.and_eq_true,
    decide_eq_true_eq]
  by_cases hc : isLeap y = true ∧ m ≥ 3
  · simp only [hc, and_self, if_true, ge_iff_le]
    simp [secondsPerHour, secondsPerMinute]
  · simp only [hc, if_false]
    simp [secondsPerHour, secondsPerMinute]

theorem dayNumber_eq (y m d : Int) : dayNumber y m d = daysSinceEpoch y + yearDay y m d := by
  unfold dayNumber yearDay; omega

theorem yearDay_bounds (y m d : Int) (h : validDate y m d) :
    0 ≤ yearDay y m d ∧ yearDay y m d < (if isLeap y = true then 366 else 365) := by
  obtain ⟨v0, v1, v2, v3, v4, v5, v6, v7, v8, v9, v10, v11, v12⟩ := daysBeforeAt_vals
  obtain ⟨h1, h2, h3, h4⟩ := h
  unfold yearDay
  unfold monthLength at h4
  by_cases hl : isLeap y = true
  · have hl2 : leapYear y := (isLeap_eq_leapYear y).mp hl
    interval_cases m <;>
      simp [hl, hl2, v0, v1, v2, v3, v4, v5, v6, v7, v8, v9, v10, v11, v12] at h4 ⊢ <;> omega
  · have hl2 : ¬ leapYear y := fun h => hl ((isLeap_eq_leapYear y).mpr h)
    interval_cases m <;>
      simp [hl, hl2, v0, v1, v2, v3, v4, v5, v6, v7, v8, v9, v10, v11, v12] at h4 ⊢ <;> omega

theorem monthDay_eq (y k : Int) :
    monthDay y k =
      if isLeap y = true ∧ k = 59 then (2, 29)
      else if commonDay y k ≥ daysBeforeAt (commonDay y k / 31 + 1) then
        (commonDay y k / 31 + 1 + 1, commonDay y k - daysBeforeAt (commonDay y k / 31 + 1) + 1)
      else
        (commonDay y k / 31 + 1, commonDay y k - daysBeforeAt (commonDay y k / 31) + 1) := by
  unfold monthDay commonDay
  by_cases hl : isLeap y = true
  · by_cases h59 : k = 59
    · simp [hl, h59]
    · by_cases hgt : k > 59
      · simp only [hl, h59, hgt, Bool.true_and, decide_eq_true_eq, if_false, if_true,
          decide_True, decide_False, Bool.false_eq_true, and_self, and_false, true_and,
          show ((31:Int) + 29 - 1) = 59 by decide]
        split_ifs <;> rfl
      · simp only [hl, h59, hgt, Bool.true_and, decide_eq_true_eq, if_false, if_true,
          decide_True, decide_False, Bool.false_eq_true, and_self, and_false, true_and,
          show ((31:Int) + 29 - 1) = 59 by decide]
        split_ifs <;> rfl
  · simp only [hl, Bool.false_and, if_false, Bool.false_eq_true, false_and]
    split_ifs <;> rfl

theorem monthDay_valid (y k : Int) (h0 : 0 ≤ k)
    (h1 : k < (if isLeap y = true then 366 else 365)) :
    ∃ m d, monthDay y k = (m, d) ∧ validDate y m d ∧ yearDay y m d = k := by
  obtain ⟨v0, v1, v2, v3, v4, v5, v6, v7, v8, v9, v10, v11, v12⟩ := daysBeforeAt_vals
  rw [monthDay_eq]
  by_cases hl : isLeap y = true
  · have hl2 : leapYear y := (isLeap_eq_leapYear y).mp hl
    rw [if_pos hl] at h1
    by_cases h59 : k = 59
    · subst h59
      refine ⟨2, 29, by simp [hl], ?_, ?_⟩
      · unfold validDate monthLength; simp [hl2]
      · unfold yearDay; simp [v1]
    · have hc : 0 ≤ commonDay y k ∧ commonDay y k ≤ 364 ∧
          (k ≤ 58 ∧ commonDay y k = k ∨ k ≥ 60 ∧ commonDay y k = k - 1) := by
        simp only [commonDay, hl, true_and]; split_ifs <;> omega
      generalize commonDay y k = c at hc
      have hq : 0 ≤ c / 31 ∧ c / 31 ≤ 11 := by omega
      generalize hqe : c / 31 = q at hq
      obtain ⟨hq0, hq1⟩ := hq
      rw [if_neg (fun h => h59 h.2)]
      interval_cases q <;>
        simp only [v0, v1, v2, v3, v4, v5, v6, v7, v8, v9, v10, v11, v12, zero_add,
          Int.reduceAdd, Int.reduceSub] <;>
        split_ifs <;> refine ⟨_, _, rfl, ?_, ?_⟩ <;>
        first
        | (unfold validDate monthLength; simp [hl2]; omega)
        | (unfold yearDay
           simp [hl, v0, v1, v2, v3, v4, v5, v6, v7, v8, v9, v10, v11, v12]; omega)
  · have hl2 : ¬ leapYear y := fun h => hl ((isLeap_eq_leapYear y).mpr h)
    rw [if_neg hl] at h1
    have hc : commonDay y k = k := by unfold commonDay; simp [hl]
    rw [hc]
    have hq : 0 ≤ k / 31 ∧ k / 31 ≤ 11 := by omega
    generalize hqe : k / 31 = q at hq
    obtain ⟨hq0, hq1⟩ := hq
    rw [if_neg (fun h => hl h.1)]
    interval_cases q <;>
      simp only [v0, v1, v2, v3, v4, v5, v6, v7, v8, v9, v10, v11, v12, zero_add,
        Int.reduceAdd, Int.reduceSub] <;>
      split_ifs <;> refine ⟨_, _, rfl, ?_, ?_⟩ <;>
      first
      | (unfold validDate monthLength; simp [hl2]; omega)
      | (unfold yearDay
         simp [hl, v0, v1, v2, v3, v4, v5, v6, v7, v8, v9, v10, v11, v12])

theorem yearDay_inj (y m d m2 d2 : Int) (h : validDate y m d) (h2 : validDate y m2 d2)
    (he : yearDay y m d = yearDay y m2 d2) : m = m2 ∧ d = d2 := by
  obtain ⟨v0, v1, v2, v3, v4, v5, v6, v7, v8, v9, v10, v11, v12⟩ := daysBeforeAt_vals
  obtain ⟨a1, a2, a3, a4⟩ := h
  obtain ⟨b1, b2, b3, b4⟩ := h2
  unfold monthLength at a4 b4
  unfold yearDay at he
  by_cases hl : isLeap y = true
  · have hl2 : leapYear y := (isLeap_eq_leapYear y).mp hl
    interval_cases m <;>
      simp [hl, hl2, v0, v1, v2, v3, v4, v5, v6, v7, v8, v9, v10, v11, v12] at a4 he <;>
      interval_cases m2 <;>
      simp [hl, hl2, v0, v1, v2, v3, v4, v5, v6, v7, v8, v9, v10, v11, v12] at b4 he <;>
      omega
  · have hl2 : ¬ leapYear y := fun h => hl ((isLeap_eq_leapYear y).mpr h)
    interval_cases m <;>
      simp [hl, hl2, v0, v1, v2, v3, v4, v5, v6, v7, v8, v9, v10, v11, v12] at a4 he <;>
      interval_cases m2 <;>
      simp [hl, hl2, v0, v1, v2, v3, v4, v5, v6, v7, v8, v9, v10, v11, v12] at b4 he <;>
      omega

theorem monthDay_of (y m d : Int) (h : validDate y m d) :
    monthDay y (yearDay y m d) = (m, d) := by
  obtain ⟨hb0, hb1⟩ := yearDay_bounds y m d h
  obtain ⟨m2, d2, e, hv, hy⟩ := monthDay_valid y (yearDay y m d) hb0 hb1
  obtain ⟨e1, e2⟩ := yearDay_inj y m2 d2 m d hv h hy
  rw [e, e1, e2]

theorem daysSinceEpoch_of_cycles (a b c e : Int)
    (hb : 0 ≤ b ∧ b ≤ 3) (hc : 0 ≤ c ∧ c ≤ 24) (he : 0 ≤ e ∧ e ≤ 3) :
    daysSinceEpoch (400 * a + 100 * b + 4 * c + e + absoluteZeroYear)
        = 146097 * a + 36524 * b + 1461 * c + 365 * e ∧
      (isLeap (400 * a + 100 * b + 4 * c + e + absoluteZeroYear) = true
        ↔ e = 3 ∧ (c ≠ 24 ∨ b = 3)) := by
  constructor
  · simp only [daysSinceEpoch, absoluteZeroYear, daysPer400Years_eq, daysPer100Years_eq,
      daysPer4Years_eq]
    have h1 : (400 * a + 100 * b + 4 * c + e + -292277022399 - -292277022399) / 400 = a := by
      omega
    rw [h1]
    have h2 : (400 * a + 100 * b + 4 * c + e + -292277022399 - -292277022399 - 400 * a) / 100
        = b := by omega
    rw [h2]
    have h3 : (400 * a + 100 * b + 4 * c + e + -292277022399 - -292277022399 - 400 * a
        - 100 * b) / 4 = c := by omega
    rw [h3]
    omega
  · rw [isLeap_iff]
    simp only [absoluteZeroYear]
    omega

theorem exists_cycles (D : Int) :
    ∃ a b c e k : Int, (0 ≤ b ∧ b ≤ 3) ∧ (0 ≤ c ∧ c ≤ 24) ∧ (0 ≤ e ∧ e ≤ 3) ∧ 0 ≤ k ∧ k ≤ 365 ∧
      (k = 365 → e = 3 ∧ (c ≠ 24 ∨ b = 3)) ∧
      D = 146097 * a + 36524 * b + 1461 * c + 365 * e + k := by
  have hr : 0 ≤ D % 146097 ∧ D % 146097 < 146097 := by omega
  have hD : D = 146097 * (D / 146097) + D % 146097 := by omega
  generalize D / 146097 = a at hD
  generalize D % 146097 = r at hr hD
  -- the hundred-year cycle
  have hb : ∃ b r2 : Int, 0 ≤ b ∧ b ≤ 3 ∧ r = 36524 * b + r2 ∧ 0 ≤ r2 ∧ r2 ≤ 36524 ∧
      (r2 = 36524 → b = 3) := by
    by_cases h : r < 109572
    · exact ⟨r / 36524, r % 36524, by omega, by omega, by omega, by omega, by omega, by omega⟩
    · exact ⟨3, r - 109572, by omega, by omega, by omega, by omega, by omega, by omega⟩
  obtain ⟨b, r2, hb0, hb1, hr2, hr20, hr21, hr22⟩ := hb
  -- the four-year cycle
  have hc : ∃ c r3 : Int, 0 ≤ c ∧ c ≤ 24 ∧ r2 = 1461 * c + r3 ∧ 0 ≤ r3 ∧ r3 ≤ 1460 ∧
      (c = 24 ∧ b ≠ 3 → r3 ≤ 1459) := by
    by_cases h : r2 < 36524
    · exact ⟨r2 / 1461, r2 % 1461, by omega, by omega, by omega, by omega, by omega, by omega⟩
    · exact ⟨24, 1460, by omega, by omega, by omega, by omega, by omega, by omega⟩
  obtain ⟨c, r3, hc0, hc1, hr3, hr30, hr31, hr32⟩ := hc
  -- the years of the cycle
  have he : ∃ e k : Int, 0 ≤ e ∧ e ≤ 3 ∧ r3 = 365 * e + k ∧ 0 ≤ k ∧ k ≤ 365 ∧
      (k = 365 → e = 3) := by
    by_cases h : r3 < 1460
    · exact ⟨r3 / 365, r3 % 365, by omega, by omega, by omega, by omega, by omega, by omega⟩
    · exact ⟨3, 365, by omega, by omega, by omega, by omega, by omega, by omega⟩
  obtain ⟨e, k, he0, he1, hk, hk0, hk1, hk2⟩ := he
  refine ⟨a, b, c, e, k, ⟨hb0, hb1⟩, ⟨hc0, hc1⟩, ⟨he0, he1⟩, hk0, hk1, ?_, by omega⟩
  intro h365
  refine ⟨hk2 h365, ?_⟩
  by_cases h24 : c = 24
  · right
    by_contra hb3
    have := hr32 ⟨h24, hb3⟩
    have := hk2 h365
    omega
  · left; exact h24

theorem absYearDay_spec (abs : Int) :
    ∃ y k, absYearDay abs = (y, k) ∧ 0 ≤ k ∧ k < (if isLeap y = true then 366 else 365) ∧
      abs / 86400 = daysSinceEpoch y + k := by
  obtain ⟨a, b, c, e, k, hb, hc, he, hk0, hk1, hk2, hD⟩ := exists_cycles (abs / 86400)
  obtain ⟨hd, hl⟩ := daysSinceEpoch_of_cycles a b c e hb hc he
  have habs : abs = (146097 * a + 36524 * b + 1461 * c + 365 * e + k) * 86400 + abs % 86400 := by
    omega
  refine ⟨400 * a + 100 * b + 4 * c + e + absoluteZeroYear, k, ?_, hk0, ?_, ?_⟩
  · conv_lhs => rw [habs]
    exact absYearDay_cycles a b c e k (abs % 86400) hb hc he hk0 hk1 hk2 (by omega)
  · by_cases h : isLeap (400 * a + 100 * b + 4 * c + e + absoluteZeroYear) = true
    · rw [if_pos h]; omega
    · rw [if_neg h]
      by_contra hcon
      have h365 : k = 365 := by omega
      exact h (hl.mpr (hk2 h365))
  · rw [hd, hD]

/-- Every absolute time lies on a date of the calendar, and `Date` of that date
is the midnight that starts its day. -/
theorem absDate_valid (abs : Int) :
    ∃ y m d k, absDate abs = (y, m, d, k) ∧ validDate y m d ∧ abs / 86400 = dayNumber y m d := by
  obtain ⟨y, k, hyk, hk0, hk1, hdiv⟩ := absYearDay_spec abs
  obtain ⟨m, d, hmd, hv, hyd⟩ := monthDay_valid y k hk0 hk1
  refine ⟨y, m, d, k, ?_, hv, ?_⟩
  · simp only [absDate, hyk, hmd]
  · rw [dayNumber_eq, hyd, hdiv]

/-- `absDate` undoes the day number of a date of the calendar. -/
theorem absDate_dayNumber (y m d s : Int) (h : validDate y m d) (hs : 0 ≤ s ∧ s < 86400) :
    absDate (dayNumber y m d * 86400 + s) = (y, m, d, yearDay y m d) := by
  obtain ⟨hb0, hb1⟩ := yearDay_bounds y m d h
  have e1 := absYearDay_of y (yearDay y m d) s hb0 hb1 hs.1 hs.2
  rw [← dayNumber_eq] at e1
  simp only [absDate, e1, monthDay_of y m d h]

theorem Date_roundtrip (y m d : Int) (h : validDate y m d) :
    (Date y m d 0 0 0 0).Date = (y, m, d) := by
  rw [GoTime.Date_midnight y m d h.1 h.2.1]
  have := absDate_dayNumber y m d 0 h (by omega)
  simp only [Time.Date, Time.abs, Location.offset, internalToAbsolute]
  rw [show dayNumber y m d * 86400 + absoluteToInternal + 0 + -absoluteToInternal
      = dayNumber y m d * 86400 + 0 by omega, this]

theorem yearDay_range (y m d : Int) (h1 : 1 ≤ m) (h2 : m ≤ 12) (h3 : 1 ≤ d) (h4 : d ≤ 31) :
    0 ≤ yearDay y m d ∧ yearDay y m d ≤ 366 := by
  obtain ⟨v0, v1, v2, v3, v4, v5, v6, v7, v8, v9, v10, v11, v12⟩ := daysBeforeAt_vals
  unfold yearDay
  interval_cases m <;>
    simp only [v0, v1, v2, v3, v4, v5, v6, v7, v8, v9, v10, v11, v12, Int.reduceSub] <;>
    split_ifs <;> omega

theorem monthLength_le (y m : Int) : monthLength y m ≤ 31 := by
  unfold monthLength; split_ifs <;> omega

theorem Hours_whole (n : Int) : Hours (n * 24 * Hour) = ((24 * n : Int) : ℚ) := by
  unfold Hours
  have h1 : Int.tdiv (n * 24 * Hour) Hour = 24 * n := by
    rw [show n * 24 * Hour = (24 * n) * Hour by ring]
    exact Int.mul_tdiv_cancel _ (by decide)
  have h2 : Int.tmod (n * 24 * Hour) Hour = 0 := by
    rw [show n * 24 * Hour = (24 * n) * Hour by ring]
    exact Int.mul_tmod_left _ _
  simp only [h1, h2]
  simp

theorem floor_days (n : Int) : Int.floor (Hours (n * 24 * Hour) / 24) = n := by
  rw [Hours_whole]
  have : (((24 * n : Int) : ℚ) / 24) = (n : ℚ) := by
    push_cast; field_simp
  rw [this]; exact Int.floor_intCast n

theorem Sub_midnights (a b : Int) (h : -100000 ≤ a - b ∧ a - b ≤ 100000) :
    (Time.mk (a * 86400 + absoluteToInternal) 0 .UTC).Sub
        (Time.mk (b * 86400 + absoluteToInternal) 0 .UTC) = (a - b) * 24 * Hour := by
  unfold Time.Sub minDuration maxDuration Hour
  simp only
  have e : (a * 86400 + absoluteToInternal - (b * 86400 + absoluteToInternal)) * 1000000000
      + (0 - 0) = (a - b) * 24 * (60 * 60 * 1000000000) := by ring
  rw [e]
  rw [if_pos]
  constructor
  · norm_num; omega
  · norm_num; omega

theorem Time.Date_valid (t : Time) : validDate t.Date.1 t.Date.2.1 t.Date.2.2 := by
  obtain ⟨y, m, d, k, e, hv, _⟩ := absDate_valid t.abs
  simp only [Time.Date, e]
  exact hv

theorem Time.Date_dayNumber (t : Time) :
    t.abs / 86400 = dayNumber t.Date.1 t.Date.2.1 t.Date.2.2 := by
  obtain ⟨y, m, d, k, e, _, hn⟩ := absDate_valid t.abs
  simp only [Time.Date, e]
  exact hn

theorem dayNumber_succ_year (y m d : Int) (h1 : 1 ≤ m) (h2 : m ≤ 12) :
    dayNumber y m d + 0 ≤ dayNumber (y + 1) m d ∧ dayNumber (y + 1) m d ≤ dayNumber y m d + 367 := by
  have c := daysSinceEpoch_succ y
  rw [dayNumber_eq, dayNumber_eq]
  obtain ⟨v0, v1, v2, v3, v4, v5, v6, v7, v8, v9, v10, v11, v12⟩ := daysBeforeAt_vals
  unfold yearDay at *
  interval_cases m <;>
    simp only [v0, v1, v2, v3, v4, v5, v6, v7, v8, v9, v10, v11, v12, Int.reduceSub] at * <;>
    split_ifs at * <;> omega

end GoTime

namespace Conf

open GoTime GoStrings Models Calendar Examples

/-! ## The date arithmetic of `BirthdayMessage` -/

theorem chosenYear_eq (birth now : Time) :
    chosenYear birth now =
      if (birth.Date.2.2 < now.Date.2.2 ∧ birth.Date.2.1 = now.Date.2.1)
          ∨ birth.Date.2.1 < now.Date.2.1 then now.Date.1 + 1 else now.Date.1 := by
  unfold chosenYear
  simp only [Bool.or_eq_true, Bool.and_eq_true, decide_eq_true_eq]

theorem chosenYear_cases (birth now : Time) :
    chosenYear birth now = now.Date.1 ∨ chosenYear birth now = now.Date.1 + 1 := by
  rw [chosenYear_eq]; split_ifs <;> simp

theorem nextBirthday_eq (birth now : Time) :
    nextBirthday birth now = ⟨dayNumber (chosenYear birth now) birth.Date.2.1 birth.Date.2.2
      * 86400 + absoluteToInternal, 0, .UTC⟩ := by
  have hv := Time.Date_valid birth
  unfold nextBirthday
  exact Date_midnight _ _ _ hv.1 hv.2.1

theorem todayMidnight_eq (now : Time) :
    todayMidnight now = ⟨dayNumber now.Date.1 now.Date.2.1 now.Date.2.2
      * 86400 + absoluteToInternal, 0, .UTC⟩ := by
  have hv := Time.Date_valid now
  unfold todayMidnight
  exact Date_midnight _ _ _ hv.1 hv.2.1

/-- The day difference of the handler is the difference of the day numbers
of the next birthday and of today. -/
theorem dayDifference_eq (birth now : Time) :
    dayDifference birth now
      = dayNumber (chosenYear birth now) birth.Date.2.1 birth.Date.2.2
        - dayNumber now.Date.1 now.Date.2.1 now.Date.2.2 := by
  have hb := Time.Date_valid birth
  have hn := Time.Date_valid now
  have hb31 := le_trans hb.2.2.2 (monthLength_le _ _)
  have hn31 := le_trans hn.2.2.2 (monthLength_le _ _)
  have r1 := yearDay_range now.Date.1 birth.Date.2.1 birth.Date.2.2 hb.1 hb.2.1 hb.2.2.1 hb31
  have r2 := yearDay_range now.Date.1 now.Date.2.1 now.Date.2.2 hn.1 hn.2.1 hn.2.2.1 hn31
  have r3 := dayNumber_succ_year now.Date.1 birth.Date.2.1 birth.Date.2.2 hb.1 hb.2.1
  have e1 := dayNumber_eq now.Date.1 birth.Date.2.1 birth.Date.2.2
  have e2 := dayNumber_eq now.Date.1 now.Date.2.1 now.Date.2.2
  unfold dayDifference
  rw [nextBirthday_eq, todayMidnight_eq, Sub_midnights, floor_days]
  rcases chosenYear_cases birth now with h | h <;> rw [h] <;> omega

end Conf

namespace GoTime

open Calendar

theorem dayNumber_inj (y m d y2 m2 d2 : Int) (h : validDate y m d) (h2 : validDate y2 m2 d2)
    (e : dayNumber y m d = dayNumber y2 m2 d2) : y = y2 ∧ m = m2 ∧ d = d2 := by
  have a := absDate_dayNumber y m d 0 h (by omega)
  have b := absDate_dayNumber y2 m2 d2 0 h2 (by omega)
  rw [e, b] at a
  simp only [Prod.mk.injEq] at a
  exact ⟨a.1.symm, a.2.1.symm, a.2.2.1.symm⟩

theorem monthLength_ge (y m : Int) : 28 ≤ monthLength y m := by
  unfold monthLength; split_ifs <;> norm_num

theorem nextDay_spec (y m d : Int) (h : validDate y m d) :
    validDate (nextDay (y, m, d)).1 (nextDay (y, m, d)).2.1 (nextDay (y, m, d)).2.2 ∧
      dayNumber (nextDay (y, m, d)).1 (nextDay (y, m, d)).2.1 (nextDay (y, m, d)).2.2
        = dayNumber y m d + 1 := by
  obtain ⟨v0, v1, v2, v3, v4, v5, v6, v7, v8, v9, v10, v11, v12⟩ := daysBeforeAt_vals
  obtain ⟨h1, h2, h3, h4⟩ := h
  unfold nextDay
  by_cases hd : d < monthLength y m
  · simp only [hd, if_true]
    refine ⟨⟨h1, h2, by omega, by omega⟩, ?_⟩
    unfold dayNumber; omega
  · simp only [hd, if_false]
    have hde : d = monthLength y m := by omega
    by_cases hm : m < 12
    · simp only [hm, if_true]
      refine ⟨⟨by omega, by omega, le_refl 1, ?_⟩, ?_⟩
      · have := monthLength_ge y (m + 1); omega
      · subst hde
        unfold dayNumber monthLength
        by_cases hl : isLeap y = true
        · have hl2 : leapYear y := (isLeap_eq_leapYear y).mp hl
          interval_cases m <;>
            simp [hl, hl2, v0, v1, v2, v3, v4, v5, v6, v7, v8, v9, v10, v11, v12] <;> omega
        · have hl2 : ¬ leapYear y := fun h => hl ((isLeap_eq_leapYear y).mpr h)
          interval_cases m <;>
            simp [hl, hl2, v0, v1, v2, v3, v4, v5, v6, v7, v8, v9, v10, v11, v12] <;> omega
    · simp only [hm, if_false]
      have hm12 : m = 12 := by omega
      subst hm12
      have hd31 : d = 31 := by rw [hde]; unfold monthLength; simp
      subst hd31
      refine ⟨⟨by omega, by omega, le_refl 1, ?_⟩, ?_⟩
      · unfold monthLength; simp
      · have c := daysSinceEpoch_succ y
        unfold dayNumber
        simp only [v0, v11, Int.reduceSub]
        by_cases hl : isLeap y = true
        · simp [hl] at c ⊢; omega
        · simp [hl] at c ⊢; omega

theorem daysAhead_spec (k : Nat) (y m d : Int) (h : validDate y m d) :
    validDate (daysAhead k (y, m, d)).1 (daysAhead k (y, m, d)).2.1 (daysAhead k (y, m, d)).2.2 ∧
      dayNumber (daysAhead k (y, m, d)).1 (daysAhead k (y, m, d)).2.1 (daysAhead k (y, m, d)).2.2
        = dayNumber y m d + k := by
  induction k with
  | zero => simp [daysAhead, h]
  | succ n ih =>
    have e : daysAhead (n + 1) (y, m, d) = nextDay (daysAhead n (y, m, d)) := by
      unfold daysAhead; exact Function.iterate_succ_apply' _ _ _
    rw [e]
    obtain ⟨iv, id⟩ := ih
    have s := nextDay_spec _ _ _ iv
    refine ⟨s.1, ?_⟩
    rw [s.2, id]; push_cast; ring

/-- A date is `k` days ahead of another exactly when its day number is `k` larger. -/
theorem daysAhead_iff (k : Nat) (y m d y2 m2 d2 : Int) (h : validDate y m d)
    (h2 : validDate y2 m2 d2) :
    daysAhead k (y, m, d) = (y2, m2, d2) ↔ dayNumber y2 m2 d2 = dayNumber y m d + k := by
  obtain ⟨hv, hd⟩ := daysAhead_spec k y m d h
  constructor
  · intro e
    rw [e] at hd
    exact hd
  · intro e
    have := dayNumber_inj _ _ _ _ _ _ hv h2 (by rw [hd, e])
    exact Prod.ext this.1 (Prod.ext this.2.1 this.2.2)

end GoTime

namespace Conf

open GoTime GoStrings Models Calendar Examples

/-! ## The lookup of `BirthdayMessage` -/

theorem filter_unique (p : Person) (P : Person → Bool) :
    ∀ rows : List Person, namesUnique rows → p ∈ rows → P p = true →
      (∀ q ∈ rows, P q = true → q.Name = p.Name) → rows.filter P = [p] := by
  intro rows
  induction rows with
  | nil => intro _ hp; simp at hp
  | cons r rs ih =>
    intro hu hp hP hall
    unfold namesUnique at hu
    rw [List.map_cons, List.nodup_cons] at hu
    rcases List.mem_cons.mp hp with e | hin
    · subst e
      have hrest : rs.filter P = [] := by
        rw [List.filter_eq_nil_iff]
        intro q hq hPq
        have hn := hall q (List.mem_cons_of_mem _ hq) hPq
        exact hu.1 (List.mem_map.mpr ⟨q, hq, hn⟩)
      rw [List.filter_cons_of_pos hP, hrest]
    · have hr : P r = false := by
        by_contra hc
        have hPr : P r = true := by simpa using hc
        have hn := hall r (List.mem_cons_self _ _) hPr
        exact hu.1 (List.mem_map.mpr ⟨p, hin, hn.symm⟩)
      rw [List.filter_cons_of_neg (by simp [hr])]
      exact ih hu.2 hin hP (fun q hq => hall q (List.mem_cons_of_mem _ hq))

theorem whereName_stored (db : DB) (p : Person) (hu : namesUnique db.rows) (hp : p ∈ db.rows)
    (hlive : p.DeletedAt = none) (hname : p.Name ≠ "") : whereName db p.Name = [p] := by
  unfold whereName
  apply filter_unique p _ db.rows hu hp
  · simp [hlive]
  · intro q _ hq
    simp only [decide_eq_true_eq] at hq
    rcases hq.2 with h | h
    · exact absurd h hname
    · exact h

theorem FindCount_stored (db : DB) (p : Person) (hu : namesUnique db.rows) (hp : p ∈ db.rows)
    (hlive : p.DeletedAt = none) (hname : p.Name ≠ "") :
    FindCount db { Name := p.Name } = (p, 1) := by
  unfold FindCount
  simp [whereName_stored db p hu hp hlive hname]

/-- The response of `BirthdayMessage` for a stored person, by the day difference. -/
theorem BirthdayMessage_stored (db : DB) (now : Time) (p : Person) (hu : namesUnique db.rows)
    (hp : p ∈ db.rows) (hlive : p.DeletedAt = none) (hname : p.Name ≠ "") :
    BirthdayMessage db now p.Name =
      respondWithJSON StatusOK
        (if dayDifference p.BirthDate now = 0 then
          ("message", "Hi, " ++ p.Name ++ "! Happy birthday!")
        else if dayDifference p.BirthDate now = 5 then
          ("message", "Hi, " ++ p.Name ++ "! Your birtday is in "
            ++ toString (dayDifference p.BirthDate now) ++ " days!")
        else ("message", "Hi, " ++ p.Name ++ "!")) := by
  unfold BirthdayMessage
  simp only [FindCount_stored db p hu hp hlive hname]
  simp

theorem reminder_text (n : String) :
    "Hi, " ++ n ++ "! Your birtday is in " ++ toString (5 : Int) ++ " days!"
      = "Hi, " ++ n ++ "! Your birtday is in 5 days!" := by
  have : toString (5 : Int) = "5" := by decide
  rw [this, String.append_assoc, String.append_assoc]
  have : "! Your birtday is in " ++ ("5" ++ " days!") = "! Your birtday is in 5 days!" := by decide
  rw [this]

theorem greeting_ne_reminder (n : String) :
    "Hi, " ++ n ++ "! Happy birthday!" ≠ "Hi, " ++ n ++ "! Your birtday is in 5 days!" := by
  intro h
  have := congrArg String.length h
  simp only [String.length_append] at this
  have a : "! Happy birthday!".length = 17 := by decide
  have b : "! Your birtday is in 5 days!".length = 28 := by decide
  omega

theorem plain_ne_reminder (n : String) :
    "Hi, " ++ n ++ "!" ≠ "Hi, " ++ n ++ "! Your birtday is in 5 days!" := by
  intro h
  have := congrArg String.length h
  simp only [String.length_append] at this
  have a : "!".length = 1 := by decide
  have b : "! Your birtday is in 5 days!".length = 28 := by decide
  omega

/-- The reminder is sent exactly when the day difference is five. -/
theorem reminder_iff (db : DB) (now : Time) (p : Person) (hu : namesUnique db.rows)
    (hp : p ∈ db.rows) (hlive : p.DeletedAt = none) (hname : p.Name ≠ "") :
    BirthdayMessage db now p.Name
        = respondWithJSON StatusOK ("message", "Hi, " ++ p.Name ++ "! Your birtday is in 5 days!")
      ↔ dayDifference p.BirthDate now = 5 := by
  rw [BirthdayMessage_stored db now p hu hp hlive hname]
  constructor
  · intro h
    by_contra hne
    by_cases h0 : dayDifference p.BirthDate now = 0
    · simp only [h0, if_true, respondWithJSON, Response.mk.injEq, Option.some.injEq,
        Prod.mk.injEq, true_and] at h
      exact greeting_ne_reminder _ h
    · simp only [h0, hne, if_false, respondWithJSON, Response.mk.injEq, Option.some.injEq,
        Prod.mk.injEq, true_and] at h
      exact plain_ne_reminder _ h
  · intro h
    rw [h]
    simp only [show ¬ ((5 : Int) = 0) by decide, if_false, if_true, reminder_text]

theorem nextOccurrence_eq (birth now : Time) :
    nextOccurrence birth.Date now.Date
      = (chosenYear birth now, birth.Date.2.1, birth.Date.2.2) := by
  rw [chosenYear_eq]
  rcases birth.Date with ⟨y0, bm, bd⟩
  rcases now.Date with ⟨ty, tm, td⟩
  simp only [nextOccurrence]
  by_cases h : bm < tm ∨ (bm = tm ∧ bd < td)
  · rw [if_pos h, if_pos (by tauto)]
  · rw [if_neg h, if_neg (by tauto)]

/-- C1: for a stored person whose birth date has the month and day of today,
`BirthdayMessage` answers with status 200 and the message
`Hi, <Name>! Happy birthday!`. -/
theorem C1_happy_birthday (db : DB) (now : Time) (p : Person)
    (hu : namesUnique db.rows) (hp : p ∈ db.rows) (hlive : p.DeletedAt = none)
    (hname : p.Name ≠ "") (hmd : p.BirthDate.Date.2 = now.Date.2) :
    BirthdayMessage db now p.Name
      = ⟨200, some "application/json", some ("message", "Hi, " ++ p.Name ++ "! Happy birthday!")⟩ := by
  have hm : p.BirthDate.Date.2.1 = now.Date.2.1 := by rw [hmd]
  have hd : p.BirthDate.Date.2.2 = now.Date.2.2 := by rw [hmd]
  have hy : chosenYear p.BirthDate now = now.Date.1 := by
    rw [chosenYear_eq, hm, hd]; simp
  have h0 : dayDifference p.BirthDate now = 0 := by
    rw [dayDifference_eq, hy, hm, hd]; omega
  rw [BirthdayMessage_stored db now p hu hp hlive hname, h0]
  rfl

theorem C1_happy_birthday_witness :
    BirthdayMessage (table alice) (Date 2020 6 15 0 0 0 0) "Alice"
      = ⟨200, some "application/json", some ("message", "Hi, Alice! Happy birthday!")⟩ :=
  C1_happy_birthday (table alice) (Date 2020 6 15 0 0 0 0) alice (by decide) (by decide) rfl
    (by decide) (by decide)

/-- C2 (as stated, refuted): for a person born on February 29 and today
2021-02-24 the reminder is sent, yet no February 29 lies five days ahead: the
date five days ahead is March 1. -/
theorem C2_reminder_counterexample :
    ¬ (BirthdayMessage (table lea) (Date 2021 2 24 0 0 0 0) "Lea"
          = respondWithJSON StatusOK ("message", "Hi, Lea! Your birtday is in 5 days!")
        ↔ daysAhead 5 (Date 2021 2 24 0 0 0 0).Date
          = nextOccurrence lea.BirthDate.Date (Date 2021 2 24 0 0 0 0).Date) := by
  intro h
  have hl : BirthdayMessage (table lea) (Date 2021 2 24 0 0 0 0) "Lea"
      = respondWithJSON StatusOK ("message", "Hi, Lea! Your birtday is in 5 days!") := by
    apply (reminder_iff (table lea) (Date 2021 2 24 0 0 0 0) lea (by decide) (by decide) rfl
      (by decide)).mpr
    rw [dayDifference_eq]
    decide
  have hr := h.mp hl
  revert hr
  decide

/-- C2 (amended): when the next occurrence of the birth month and day (this
year's, or next year's when this year's has passed) is a date of the calendar,
`BirthdayMessage` sends `Hi, <Name>! Your birtday is in 5 days!` if and only if
that date is exactly five days after today; when it is one to four days after
today the plain greeting is sent. -/
theorem C2_reminder_five_days (db : DB) (now : Time) (p : Person)
    (hu : namesUnique db.rows) (hp : p ∈ db.rows) (hlive : p.DeletedAt = none)
    (hname : p.Name ≠ "") (hdate : isDate (nextOccurrence p.BirthDate.Date now.Date)) :
    (BirthdayMessage db now p.Name
        = respondWithJSON StatusOK ("message", "Hi, " ++ p.Name ++ "! Your birtday is in 5 days!")
      ↔ daysAhead 5 now.Date = nextOccurrence p.BirthDate.Date now.Date) ∧
    (∀ k : Nat, 1 ≤ k → k ≤ 4 → daysAhead k now.Date = nextOccurrence p.BirthDate.Date now.Date →
      BirthdayMessage db now p.Name
        = respondWithJSON StatusOK ("message", "Hi, " ++ p.Name ++ "!")) := by
  rw [nextOccurrence_eq] at hdate ⊢
  have hn := Time.Date_valid now
  have key : ∀ k : Nat, daysAhead k now.Date
      = (chosenYear p.BirthDate now, p.BirthDate.Date.2.1, p.BirthDate.Date.2.2)
      ↔ dayDifference p.BirthDate now = k := by
    intro k
    rw [dayDifference_eq]
    have := daysAhead_iff k now.Date.1 now.Date.2.1 now.Date.2.2 (chosenYear p.BirthDate now)
      p.BirthDate.Date.2.1 p.BirthDate.Date.2.2 hn hdate
    rw [this]
    constructor <;> intro h <;> omega
  constructor
  · rw [reminder_iff db now p hu hp hlive hname, key 5]
    norm_num
  · intro k h1 h4 hk
    have hdd := (key k).mp hk
    rw [BirthdayMessage_stored db now p hu hp hlive hname, hdd]
    have a : ¬ ((k : Int) = 0) := by omega
    have b : ¬ ((k : Int) = 5) := by omega
    simp only [a, b, if_false]

/-- The wrap over the end of the year: born on January 5, today 2020-12-31. -/
theorem C2_reminder_five_days_witness :
    BirthdayMessage (table dan) (Date 2020 12 31 0 0 0 0) "Dan"
      = respondWithJSON StatusOK ("message", "Hi, Dan! Your birtday is in 5 days!") :=
  (C2_reminder_five_days (table dan) (Date 2020 12 31 0 0 0 0) dan (by decide) (by decide) rfl
    (by decide) (by decide)).1.mpr (by decide)

theorem dayNumber_leap_day (y : Int) (h : ¬ leapYear y) : dayNumber y 2 29 = dayNumber y 3 1 := by
  obtain ⟨v0, v1, v2, v3, v4, v5, v6, v7, v8, v9, v10, v11, v12⟩ := daysBeforeAt_vals
  have hl : ¬ isLeap y = true := fun e => h ((isLeap_eq_leapYear y).mp e)
  unfold dayNumber
  simp [hl, v1, v2]
  omega

/-- C9 (as stated, refuted): born on February 29, today 2021-02-23, chosen
year 2021.  The next birthday the handler uses is not February 28, and the day
difference is 6 although February 28 is five days ahead. -/
theorem C9_leap_day_counterexample :
    lea.BirthDate.Date.2 = (2, 29) ∧
    ¬ leapYear (nextOccurrence lea.BirthDate.Date (Date 2021 2 23 0 0 0 0).Date).1 ∧
    (nextBirthday lea.BirthDate (Date 2021 2 23 0 0 0 0)).Date ≠ (2021, 2, 28) ∧
    dayDifference lea.BirthDate (Date 2021 2 23 0 0 0 0) = 6 ∧
    daysAhead 5 (Date 2021 2 23 0 0 0 0).Date = (2021, 2, 28) := by
  refine ⟨by decide, by decide, by decide, ?_, by decide⟩
  rw [dayDifference_eq]
  decide

/-- C9 (amended): for a birth date of February 29 and a chosen year (this year
or next, by the already-passed rule) that is not a leap year, the next birthday
the handler uses is March 1 of that year: `time.Date` rolls day 29 of February
over, and the day difference counts the days from today to March 1. -/
theorem C9_leap_day_rolls_to_march (birth now : Time) (h29 : birth.Date.2 = (2, 29))
    (hleap : ¬ leapYear (nextOccurrence birth.Date now.Date).1) :
    (nextBirthday birth now).Date = ((nextOccurrence birth.Date now.Date).1, 3, 1) ∧
    0 ≤ dayDifference birth now ∧
    daysAhead (dayDifference birth now).toNat now.Date
      = ((nextOccurrence birth.Date now.Date).1, 3, 1) := by
  rw [nextOccurrence_eq] at hleap ⊢
  simp only at hleap ⊢
  have hm : birth.Date.2.1 = 2 := by rw [h29]
  have hd : birth.Date.2.2 = 29 := by rw [h29]
  have hn := Time.Date_valid now
  have hv : validDate (chosenYear birth now) 3 1 := by
    refine ⟨by omega, by omega, by omega, ?_⟩
    have := monthLength_ge (chosenYear birth now) 3; omega
  have hroll := dayNumber_leap_day _ hleap
  have hdd : dayDifference birth now
      = dayNumber (chosenYear birth now) 3 1 - dayNumber now.Date.1 now.Date.2.1 now.Date.2.2 := by
    rw [dayDifference_eq, hm, hd, hroll]
  have hpos : 0 ≤ dayDifference birth now := by
    rw [hdd]
    have hy := chosenYear_eq birth now
    rw [hm, hd] at hy
    have hb := yearDay_bounds _ _ _ hn
    have e1 := dayNumber_eq now.Date.1 now.Date.2.1 now.Date.2.2
    by_cases hpassed : (29 < now.Date.2.2 ∧ 2 = now.Date.2.1) ∨ 2 < now.Date.2.1
    · rw [if_pos hpassed] at hy
      have e2 := dayNumber_eq (now.Date.1 + 1) 3 1
      have e3 := daysSinceEpoch_succ now.Date.1
      have r := yearDay_range (now.Date.1 + 1) 3 1 (by omega) (by omega) (by omega) (by omega)
      rw [hy, e1, e2, e3]
      split_ifs at hb ⊢ <;> omega
    · rw [if_neg hpassed] at hy
      rw [hy] at hleap ⊢
      have hl : ¬ isLeap now.Date.1 = true := fun e => hleap ((isLeap_eq_leapYear _).mp e)
      obtain ⟨v0, v1, v2, v3, v4, v5, v6, v7, v8, v9, v10, v11, v12⟩ := daysBeforeAt_vals
      obtain ⟨a1, a2, a3, a4⟩ := hn
      have hle : now.Date.2.1 ≤ 2 := by omega
      unfold monthLength at a4
      unfold dayNumber
      generalize now.Date.2.1 = tm at *
      generalize now.Date.2.2 = td at *
      interval_cases tm <;> simp [hl, hleap, v0, v1, v2] at a4 ⊢ <;> omega
  refine ⟨?_, hpos, ?_⟩
  · rw [nextBirthday_eq, hm, hd, hroll]
    have := absDate_dayNumber _ 3 1 0 hv (by omega)
    simp only [Time.Date, Time.abs, Location.offset, internalToAbsolute]
    rw [show dayNumber (chosenYear birth now) 3 1 * 86400 + absoluteToInternal + 0
        + -absoluteToInternal = dayNumber (chosenYear birth now) 3 1 * 86400 + 0 by omega, this]
  · have := daysAhead_iff (dayDifference birth now).toNat now.Date.1 now.Date.2.1 now.Date.2.2
      (chosenYear birth now) 3 1 hn hv
    rw [this, Int.toNat_of_nonneg hpos, hdd]
    omega

theorem C9_leap_day_rolls_to_march_witness :
    (nextBirthday lea.BirthDate (Date 2021 2 23 0 0 0 0)).Date
        = ((nextOccurrence lea.BirthDate.Date (Date 2021 2 23 0 0 0 0).Date).1, 3, 1) ∧
    0 ≤ dayDifference lea.BirthDate (Date 2021 2 23 0 0 0 0) ∧
    daysAhead (dayDifference lea.BirthDate (Date 2021 2 23 0 0 0 0)).toNat
        (Date 2021 2 23 0 0 0 0).Date
      = ((nextOccurrence lea.BirthDate.Date (Date 2021 2 23 0 0 0 0).Date).1, 3, 1) :=
  C9_leap_day_rolls_to_march lea.BirthDate (Date 2021 2 23 0 0 0 0) (by decide) (by decide)

end Conf

namespace GoTime

open Calendar GoStrings

/-! ## Parsing and formatting with the layout `2006-01-02` -/

theorem zero_toNat : '0'.toNat = 48 := by decide
theorem nine_toNat : '9'.toNat = 57 := by decide

theorem digit_iff (c : Char) : digit c ↔ 48 ≤ c.toNat ∧ c.toNat ≤ 57 := by
  unfold digit; rw [zero_toNat, nine_toNat]

theorem digit_ne_sign (c : Char) (h : digit c) : c ≠ '-' ∧ c ≠ '+' := by
  constructor <;> (intro e; subst e; revert h; decide)

theorem digitValue_range (c : Char) (h : digit c) : 0 ≤ digitValue c ∧ digitValue c ≤ 9 := by
  rw [digit_iff] at h
  unfold digitValue; rw [zero_toNat]; omega

theorem isDigit_zero (c : Char) (s : List Char) : isDigit (c :: s) 0 = true ↔ digit c := by
  simp [isDigit, digit]

theorem isDigit_one (a c : Char) (s : List Char) : isDigit (a :: c :: s) 1 = true ↔ digit c := by
  simp [isDigit, digit]

theorem leadingInt_digit (c : Char) (s : List Char) (x : Int) (h : digit c) :
    leadingInt (c :: s) x = leadingInt s (x * 10 + digitValue c) := by
  rw [digit_iff] at h
  simp only [leadingInt, zero_toNat, nine_toNat, digitValue]
  rw [if_neg]
  simp; omega

theorem leadingInt_other (c : Char) (s : List Char) (x : Int) (h : ¬ digit c) :
    leadingInt (c :: s) x = (x, c :: s) := by
  rw [digit_iff] at h
  simp only [leadingInt, zero_toNat, nine_toNat]
  rw [if_pos]
  simp; omega

/-- `atoi` of four bytes that start with a digit: a number exactly when all
four are digits. -/
theorem atoi_four (a b c d : Char) (ha : digit a) :
    atoi [a, b, c, d] =
      if digit b ∧ digit c ∧ digit d then
        some (1000 * digitValue a + 100 * digitValue b + 10 * digitValue c + digitValue d)
      else none := by
  obtain ⟨n1, n2⟩ := digit_ne_sign a ha
  simp only [atoi, n1, n2, if_false]
  rw [leadingInt_digit a _ _ ha]
  by_cases hb : digit b
  · rw [leadingInt_digit b _ _ hb]
    by_cases hc : digit c
    · rw [leadingInt_digit c _ _ hc]
      by_cases hd : digit d
      · rw [leadingInt_digit d _ _ hd]
        simp only [leadingInt, hb, hc, hd, and_self, if_true, ne_eq, not_true_eq_false,
          if_false, Bool.false_eq_true, Option.some.injEq]
        ring
      · rw [leadingInt_other d _ _ hd]
        simp [hd]
    · rw [leadingInt_other c _ _ hc]
      simp [hc]
  · rw [leadingInt_other b _ _ hb]
    simp [hb]

theorem getnum_cons (a b : Char) (rest : List Char) :
    getnum (a :: b :: rest) =
      if digit a ∧ digit b then some (10 * digitValue a + digitValue b, rest) else none := by
  unfold getnum
  by_cases ha : digit a
  · by_cases hb : digit b
    · have h0 := (isDigit_zero a (b :: rest)).mpr ha
      have h1 := (isDigit_one a b rest).mpr hb
      simp only [h0, h1, Bool.not_true, Bool.false_eq_true, if_false, ha, hb, and_self, if_true,
        Option.some.injEq, Prod.mk.injEq, and_true]
      unfold digitValue
      push_cast
      ring
    · have h1 : isDigit (a :: b :: rest) 1 = false := by
        rw [← Bool.not_eq_true, isDigit_one]; exact hb
      simp [h1, hb]
  · have h0 : isDigit (a :: b :: rest) 0 = false := by
      rw [← Bool.not_eq_true, isDigit_zero]; exact ha
    simp [h0, ha]

theorem getnum_short (s : List Char) (h : s.length < 2) : getnum s = none := by
  match s, h with
  | [], _ => simp [getnum, isDigit]
  | [a], _ => simp [getnum, isDigit]

theorem validDate_iff_daysIn (y m d : Int) :
    validDate y m d ↔ ¬ (m ≤ 0 ∨ 12 < m) ∧ ¬ (d < 1 ∨ d > daysIn m y) := by
  unfold validDate
  constructor
  · rintro ⟨h1, h2, h3, h4⟩
    rw [daysIn_eq y m h1 h2]
    omega
  · rintro ⟨h1, h2⟩
    have a1 : 1 ≤ m := by omega
    have a2 : m ≤ 12 := by omega
    rw [daysIn_eq y m a1 a2] at h2
    omega

/-- `Parse` on ten bytes. -/
theorem Parse_ten (c0 c1 c2 c3 c4 c5 c6 c7 c8 c9 : Char) :
    (Parse [c0, c1, c2, c3, c4, c5, c6, c7, c8, c9]).2 = none ↔
      isISODate [c0, c1, c2, c3, c4, c5, c6, c7, c8, c9] := by
  unfold isISODate isoFields
  by_cases h0 : digit c0
  · have i0 := (isDigit_zero c0 [c1, c2, c3, c4, c5, c6, c7, c8, c9]).mpr h0
    simp only [Parse, List.length_cons, List.length_nil, i0, List.take, List.drop,
      atoi_four c0 c1 c2 c3 h0]
    by_cases h123 : digit c1 ∧ digit c2 ∧ digit c3
    · obtain ⟨h1, h2, h3⟩ := h123
      by_cases h4 : c4 = '-'
      · subst h4
        by_cases h56 : digit c5 ∧ digit c6
        · obtain ⟨h5, h6⟩ := h56
          by_cases h7 : c7 = '-'
          · subst h7
            by_cases h89 : digit c8 ∧ digit c9
            · obtain ⟨h8, h9⟩ := h89
              simp only [h0, h1, h2, h3, h5, h6, h8, h9, skip, getnum_cons, and_self, if_true,
                List.length_nil]
              rw [validDate_iff_daysIn]
              simp only [Bool.or_eq_true, decide_eq_true_eq]
              split_ifs <;> simp_all
            · simp [h0, h1, h2, h3, h5, h6, h89, skip, getnum_cons]
              split_ifs <;> simp_all
          · simp [h0, h1, h2, h3, h5, h6, h7, skip, getnum_cons]
            split_ifs <;> simp_all
        · simp [h0, h1, h2, h3, h56, skip, getnum_cons]
          rw [if_neg (by tauto)]
          simp
      · simp [h0, h1, h2, h3, h4, skip]
    · simp [h0, h123]
      rw [if_neg (by tauto)]
      simp
  · have i0 : isDigit [c0, c1, c2, c3, c4, c5, c6, c7, c8, c9] 0 = false := by
      rw [← Bool.not_eq_true, isDigit_zero]; exact h0
    simp [Parse, i0, h0]

theorem Parse_length (s : List Char) (h : (Parse s).2 = none) : s.length = 10 := by
  rcases s with _ | ⟨c0, _ | ⟨c1, _ | ⟨c2, _ | ⟨c3, r⟩⟩⟩⟩
  · simp [Parse] at h
  · simp [Parse] at h
  · simp [Parse] at h
  · simp [Parse] at h
  by_cases h0 : digit c0
  swap
  · have i0 : isDigit (c0 :: c1 :: c2 :: c3 :: r) 0 = false := by
      rw [← Bool.not_eq_true, isDigit_zero]; exact h0
    simp [Parse, i0] at h
  have i0 := (isDigit_zero c0 (c1 :: c2 :: c3 :: r)).mpr h0
  simp only [Parse, List.length_cons, i0, List.take, List.drop, atoi_four c0 c1 c2 c3 h0] at h
  rw [if_neg (by simp)] at h
  by_cases h123 : digit c1 ∧ digit c2 ∧ digit c3
  swap
  · simp [h123] at h
  rcases r with _ | ⟨c4, r⟩
  · simp [h123, skip] at h
  by_cases h4 : c4 = '-'
  swap
  · simp [h123, skip, h4] at h
  rcases r with _ | ⟨c5, _ | ⟨c6, r⟩⟩
  · simp [h123, skip, h4, getnum_short] at h
  · simp [h123, skip, h4, getnum_short] at h
  by_cases h56 : digit c5 ∧ digit c6
  swap
  · simp [h123, skip, h4, getnum_cons, h56] at h
  simp only [h123, skip, h4, getnum_cons, h56, and_self, if_true] at h
  split_ifs at h with hm
  clear hm
  rcases r with _ | ⟨c7, r⟩
  · simp at h
  by_cases h7 : c7 = '-'
  swap
  · simp [h7] at h
  rcases r with _ | ⟨c8, _ | ⟨c9, r⟩⟩
  · simp [h7, getnum_short] at h
  · simp [h7, getnum_short] at h
  by_cases h89 : digit c8 ∧ digit c9
  swap
  · simp [h7, getnum_cons, h89] at h
  simp only [h7, getnum_cons, h89, and_self, if_true] at h
  rcases r with _ | ⟨c10, r⟩
  · rfl
  · simp at h

/-- `Parse` accepts exactly the valid ISO date strings. -/
theorem Parse_ok_iff (s : List Char) : (Parse s).2 = none ↔ isISODate s := by
  constructor
  · intro h
    have hl := Parse_length s h
    match s, hl with
    | [c0, c1, c2, c3, c4, c5, c6, c7, c8, c9], _ => exact (Parse_ten _ _ _ _ _ _ _ _ _ _).mp h
  · intro h
    match s, h with
    | [c0, c1, c2, c3, c4, c5, c6, c7, c8, c9], h => exact (Parse_ten _ _ _ _ _ _ _ _ _ _).mpr h

theorem isoFields_some (s : List Char) (y m d : Int) (hf : isoFields s = some (y, m, d)) :
    ∃ c0 c1 c2 c3 c5 c6 c8 c9 : Char, s = [c0, c1, c2, c3, '-', c5, c6, '-', c8, c9] ∧
      digit c0 ∧ digit c1 ∧ digit c2 ∧ digit c3 ∧ digit c5 ∧ digit c6 ∧ digit c8 ∧ digit c9 ∧
      y = 1000 * digitValue c0 + 100 * digitValue c1 + 10 * digitValue c2 + digitValue c3 ∧
      m = 10 * digitValue c5 + digitValue c6 ∧ d = 10 * digitValue c8 + digitValue c9 := by
  match s, hf with
  | [c0, c1, c2, c3, c4, c5, c6, c7, c8, c9], hf =>
    simp only [isoFields] at hf
    split_ifs at hf with hc
    obtain ⟨h0, h1, h2, h3, h4, h5, h6, h7, h8, h9⟩ := hc
    subst h4 h7
    simp only [Option.some.injEq, Prod.mk.injEq] at hf
    exact ⟨c0, c1, c2, c3, c5, c6, c8, c9, rfl, h0, h1, h2, h3, h5, h6, h8, h9, hf.1.symm,
      hf.2.1.symm, hf.2.2.symm⟩

/-- `Parse` of a valid ISO date string is the midnight of its date. -/
theorem Parse_fields (s : List Char) (y m d : Int) (hf : isoFields s = some (y, m, d))
    (hv : validDate y m d) : Parse s = (Date y m d 0 0 0 0, none) := by
  obtain ⟨c0, c1, c2, c3, c5, c6, c8, c9, rfl, h0, h1, h2, h3, h5, h6, h8, h9, rfl, rfl, rfl⟩ :=
    isoFields_some s y m d hf
  have i0 := (isDigit_zero c0 [c1, c2, c3, '-', c5, c6, '-', c8, c9]).mpr h0
  rw [validDate_iff_daysIn] at hv
  simp only [Parse, List.length_cons, List.length_nil, i0, List.take, List.drop,
    atoi_four c0 c1 c2 c3 h0, h1, h2, h3, h5, h6, h8, h9, skip, getnum_cons, and_self, if_true]
  simp only [Bool.or_eq_true, decide_eq_true_eq]
  rw [if_neg (by simp), if_neg hv.1, if_neg (by simp), if_neg hv.2]

theorem Parse_error (s : List Char) (h : ¬ isISODate s) : ∃ e, (Parse s).2 = some e := by
  rcases hp : (Parse s).2 with _ | e
  · exact absurd ((Parse_ok_iff s).mp hp) h
  · exact ⟨e, rfl⟩

theorem Parse_iso (s : List Char) (h : isISODate s) :
    ∃ y m d, isoFields s = some (y, m, d) ∧ validDate y m d ∧
      Parse s = (Date y m d 0 0 0 0, none) := by
  unfold isISODate at h
  rcases hf : isoFields s with _ | ⟨y, m, d⟩
  · simp [hf] at h
  · simp only [hf] at h
    exact ⟨y, m, d, rfl, h, Parse_fields s y m d hf h⟩

theorem digitChar_toNat (n : Int) (h0 : 0 ≤ n) (h9 : n ≤ 9) : (digitChar n).toNat = 48 + n.toNat := by
  unfold digitChar
  rw [zero_toNat]
  have : n.toNat ≤ 9 := by omega
  generalize n.toNat = k at this
  interval_cases k <;> decide

theorem digitChar_digit (n : Int) (h0 : 0 ≤ n) (h9 : n ≤ 9) : digit (digitChar n) := by
  rw [digit_iff, digitChar_toNat n h0 h9]; omega

theorem digitValue_digitChar (n : Int) (h0 : 0 ≤ n) (h9 : n ≤ 9) : digitValue (digitChar n) = n := by
  unfold digitValue
  rw [digitChar_toNat n h0 h9, zero_toNat]
  omega

theorem digitChar_digitValue (c : Char) (h : digit c) : digitChar (digitValue c) = c := by
  rw [digit_iff] at h
  unfold digitChar digitValue
  rw [zero_toNat]
  have : 48 + (((c.toNat - 48 : Nat) : Int)).toNat = c.toNat := by omega
  rw [this]
  exact Char.ofNat_toNat c

theorem digitChar_ne_hyphen (n : Int) (h0 : 0 ≤ n) (h9 : n ≤ 9) : digitChar n ≠ '-' :=
  (digit_ne_sign _ (digitChar_digit n h0 h9)).1

/-- The fields of the text of a date are that date. -/
theorem isoFields_isoText (y m d : Int) (hy : 0 ≤ y ∧ y ≤ 9999) (hm : 0 ≤ m ∧ m ≤ 99)
    (hd : 0 ≤ d ∧ d ≤ 99) : isoFields (isoText y m d) = some (y, m, d) := by
  have a0 := digitChar_digit (y / 1000) (by omega) (by omega)
  have a1 := digitChar_digit (y / 100 % 10) (by omega) (by omega)
  have a2 := digitChar_digit (y / 10 % 10) (by omega) (by omega)
  have a3 := digitChar_digit (y % 10) (by omega) (by omega)
  have a5 := digitChar_digit (m / 10) (by omega) (by omega)
  have a6 := digitChar_digit (m % 10) (by omega) (by omega)
  have a8 := digitChar_digit (d / 10) (by omega) (by omega)
  have a9 := digitChar_digit (d % 10) (by omega) (by omega)
  have b0 := digitValue_digitChar (y / 1000) (by omega) (by omega)
  have b1 := digitValue_digitChar (y / 100 % 10) (by omega) (by omega)
  have b2 := digitValue_digitChar (y / 10 % 10) (by omega) (by omega)
  have b3 := digitValue_digitChar (y % 10) (by omega) (by omega)
  have b5 := digitValue_digitChar (m / 10) (by omega) (by omega)
  have b6 := digitValue_digitChar (m % 10) (by omega) (by omega)
  have b8 := digitValue_digitChar (d / 10) (by omega) (by omega)
  have b9 := digitValue_digitChar (d % 10) (by omega) (by omega)
  simp only [isoText, isoFields, a0, a1, a2, a3, a5, a6, a8, a9, and_self, if_true, b0, b1, b2,
    b3, b5, b6, b8, b9, Option.some.injEq, Prod.mk.injEq]
  refine ⟨by omega, by omega, by omega⟩

/-- A text with the fields of a date is the text of that date. -/
theorem isoText_isoFields (s : List Char) (y m d : Int) (hf : isoFields s = some (y, m, d)) :
    isoText y m d = s ∧ (0 ≤ y ∧ y ≤ 9999) := by
  obtain ⟨c0, c1, c2, c3, c5, c6, c8, c9, rfl, h0, h1, h2, h3, h5, h6, h8, h9, rfl, rfl, rfl⟩ :=
    isoFields_some s y m d hf
  have r0 := digitValue_range c0 h0
  have r1 := digitValue_range c1 h1
  have r2 := digitValue_range c2 h2
  have r3 := digitValue_range c3 h3
  have r5 := digitValue_range c5 h5
  have r6 := digitValue_range c6 h6
  have r8 := digitValue_range c8 h8
  have r9 := digitValue_range c9 h9
  refine ⟨?_, by omega, by omega⟩
  unfold isoText
  rw [show (1000 * digitValue c0 + 100 * digitValue c1 + 10 * digitValue c2 + digitValue c3) / 1000
      = digitValue c0 by omega,
    show (1000 * digitValue c0 + 100 * digitValue c1 + 10 * digitValue c2 + digitValue c3) / 100
      % 10 = digitValue c1 by omega,
    show (1000 * digitValue c0 + 100 * digitValue c1 + 10 * digitValue c2 + digitValue c3) / 10
      % 10 = digitValue c2 by omega,
    show (1000 * digitValue c0 + 100 * digitValue c1 + 10 * digitValue c2 + digitValue c3) % 10
      = digitValue c3 by omega,
    show (10 * digitValue c5 + digitValue c6) / 10 = digitValue c5 by omega,
    show (10 * digitValue c5 + digitValue c6) % 10 = digitValue c6 by omega,
    show (10 * digitValue c8 + digitValue c9) / 10 = digitValue c8 by omega,
    show (10 * digitValue c8 + digitValue c9) % 10 = digitValue c9 by omega]
  simp only [digitChar_digitValue, h0, h1, h2, h3, h5, h6, h8, h9]

theorem digits_small (f u : Nat) (buf : List Char) (h : u < 10) :
    digits f u buf = Char.ofNat ('0'.toNat + u) :: buf := by
  cases f with
  | zero => simp only [digits]; rw [Nat.mod_eq_of_lt h]
  | succ f => simp only [digits]; rw [if_neg (by omega)]

theorem digits_step (f u : Nat) (buf : List Char) (h : u ≥ 10) :
    digits (f + 1) u buf = digits f (u / 10) (Char.ofNat ('0'.toNat + u % 10) :: buf) := by
  simp only [digits]; rw [if_pos h]

theorem digitChar_ofNat (n : Nat) : Char.ofNat ('0'.toNat + n) = digitChar (n : Int) := by
  unfold digitChar; simp

theorem appendInt_nonneg (b : List Char) (n width : Nat) :
    appendInt b (n : Int) width
      = b ++ (List.replicate (width - (digits 19 n []).length) '0' ++ digits 19 n []) := by
  simp only [appendInt, Int.natAbs_ofNat, show ¬ ((n : Int) < 0) by omega, if_false,
    List.append_assoc]

theorem zero_digitChar : '0' = digitChar 0 := by decide

theorem appendInt_four (b : List Char) (x : Int) (h0 : 0 ≤ x) (h1 : x ≤ 9999) :
    appendInt b x 4 = b ++ [digitChar (x / 1000), digitChar (x / 100 % 10),
      digitChar (x / 10 % 10), digitChar (x % 10)] := by
  obtain ⟨n, rfl⟩ := Int.eq_ofNat_of_zero_le h0
  have hn : n ≤ 9999 := by omega
  rw [appendInt_nonneg]
  congr 1
  by_cases c1 : n < 10
  · rw [digits_small _ _ _ c1]
    simp only [digitChar_ofNat]
    rw [show (n : Int) / 1000 = 0 by omega, show (n : Int) / 100 % 10 = 0 by omega,
      show (n : Int) / 10 % 10 = 0 by omega, show (n : Int) % 10 = n by omega,
      zero_digitChar]
    rfl
  rw [digits_step _ _ _ (by omega)]
  by_cases c2 : n < 100
  · rw [digits_small _ _ _ (by omega)]
    simp only [digitChar_ofNat]
    rw [show (n : Int) / 1000 = 0 by omega, show (n : Int) / 100 % 10 = 0 by omega,
      show (n : Int) / 10 % 10 = ((n / 10 : Nat) : Int) by omega,
      show (n : Int) % 10 = ((n % 10 : Nat) : Int) by omega, zero_digitChar]
    rfl
  rw [digits_step _ _ _ (by omega)]
  by_cases c3 : n < 1000
  · rw [digits_small _ _ _ (by omega)]
    simp only [digitChar_ofNat]
    rw [show (n : Int) / 1000 = 0 by omega,
      show (n : Int) / 100 % 10 = ((n / 10 / 10 : Nat) : Int) by omega,
      show (n : Int) / 10 % 10 = ((n / 10 % 10 : Nat) : Int) by omega,
      show (n : Int) % 10 = ((n % 10 : Nat) : Int) by omega, zero_digitChar]
    rfl
  rw [digits_step _ _ _ (by omega), digits_small _ _ _ (by omega)]
  simp only [digitChar_ofNat]
  rw [show (n : Int) / 1000 = ((n / 10 / 10 / 10 : Nat) : Int) by omega,
    show (n : Int) / 100 % 10 = ((n / 10 / 10 % 10 : Nat) : Int) by omega,
    show (n : Int) / 10 % 10 = ((n / 10 % 10 : Nat) : Int) by omega,
    show (n : Int) % 10 = ((n % 10 : Nat) : Int) by omega]
  rfl

theorem appendInt_two (b : List Char) (x : Int) (h0 : 0 ≤ x) (h1 : x ≤ 99) :
    appendInt b x 2 = b ++ [digitChar (x / 10), digitChar (x % 10)] := by
  obtain ⟨n, rfl⟩ := Int.eq_ofNat_of_zero_le h0
  have hn : n ≤ 99 := by omega
  rw [appendInt_nonneg]
  congr 1
  by_cases c1 : n < 10
  · rw [digits_small _ _ _ c1]
    simp only [digitChar_ofNat]
    rw [show (n : Int) / 10 = 0 by omega, show (n : Int) % 10 = n by omega, zero_digitChar]
    rfl
  rw [digits_step _ _ _ (by omega), digits_small _ _ _ (by omega)]
  simp only [digitChar_ofNat]
  rw [show (n : Int) / 10 = ((n / 10 : Nat) : Int) by omega,
    show (n : Int) % 10 = ((n % 10 : Nat) : Int) by omega]
  rfl

/-- `Format` writes the text of the date on which the time lies. -/
theorem Format_eq (t : Time) (hy : 0 ≤ t.Date.1 ∧ t.Date.1 ≤ 9999) :
    t.Format = isoText t.Date.1 t.Date.2.1 t.Date.2.2 := by
  obtain ⟨y, m, d, k, e, hv, _⟩ := absDate_valid t.abs
  have h31 := le_trans hv.2.2.2 (monthLength_le _ _)
  obtain ⟨h1, h2, h3, _⟩ := hv
  simp only [Time.Date, e] at hy
  simp only [Time.Format, Time.Date, e]
  rw [appendInt_four _ y hy.1 hy.2, appendInt_two _ m (by omega) (by omega),
    appendInt_two _ d (by omega) (by omega)]
  simp [isoText]

theorem Format_Date (y m d : Int) (hv : validDate y m d) (hy : 0 ≤ y ∧ y ≤ 9999) :
    (Date y m d 0 0 0 0).Format = isoText y m d := by
  have e := Date_roundtrip y m d hv
  have := Format_eq (Date y m d 0 0 0 0) (by rw [e]; exact hy)
  rw [this, e]

end GoTime

namespace GoStrings

/-! ## Package `strings` -/

theorem trimLeftByte_of_ne (x c : Char) (s : List Char) (h : x ≠ c) :
    trimLeftByte (x :: s) c = x :: s := by
  simp [trimLeftByte, h]

theorem trimLeftByte_replicate (n : Nat) (c : Char) (s : List Char) :
    trimLeftByte (List.replicate n c ++ s) c = trimLeftByte s c := by
  induction n with
  | zero => simp
  | succ k ih => simp [List.replicate_succ, trimLeftByte, ih]

/-- What `trimLeftByte` removes is a run of the byte. -/
theorem trimLeftByte_split (c : Char) (s : List Char) :
    ∃ n, s = List.replicate n c ++ trimLeftByte s c := by
  induction s with
  | nil => exact ⟨0, rfl⟩
  | cons x s ih =>
    by_cases h : x = c
    · obtain ⟨n, hn⟩ := ih
      refine ⟨n + 1, ?_⟩
      subst h
      simp only [trimLeftByte, if_true, List.replicate_succ, List.cons_append]
      rw [← hn]
    · exact ⟨0, by simp [trimLeftByte, h]⟩

theorem Trim_split (c : Char) (s : List Char) :
    ∃ i j, s = List.replicate i c ++ Trim s c ++ List.replicate j c := by
  obtain ⟨j, hj⟩ := trimLeftByte_split c s.reverse
  obtain ⟨i, hi⟩ := trimLeftByte_split c (trimRightByte s c)
  refine ⟨i, j, ?_⟩
  unfold Trim
  rw [← hi]
  unfold trimRightByte
  have := congrArg List.reverse hj
  simp only [List.reverse_reverse, List.reverse_append, List.reverse_replicate] at this
  exact this

/-- `Trim` of a text between runs of the byte, when the text neither starts
nor ends with the byte. -/
theorem Trim_wrapped (c x y : Char) (mid : List Char) (i j : Nat) (hx : x ≠ c) (hy : y ≠ c) :
    Trim (List.replicate i c ++ (x :: (mid ++ [y])) ++ List.replicate j c) c
      = x :: (mid ++ [y]) := by
  unfold Trim trimRightByte
  have r : (List.replicate i c ++ (x :: (mid ++ [y])) ++ List.replicate j c).reverse
      = List.replicate j c ++ (y :: (mid.reverse ++ x :: List.replicate i c)) := by
    simp [List.reverse_append, List.reverse_replicate]
  rw [r, trimLeftByte_replicate, trimLeftByte_of_ne _ _ _ hy]
  have r2 : (y :: (mid.reverse ++ x :: List.replicate i c)).reverse
      = List.replicate i c ++ (x :: (mid ++ [y])) := by
    simp [List.reverse_append, List.reverse_replicate]
  rw [r2, trimLeftByte_replicate, trimLeftByte_of_ne _ _ _ hx]

theorem Split_ne_nil (s : List Char) (sep : Char) : Split s sep ≠ [] := by
  induction s with
  | nil => simp [Split]
  | cons x s ih =>
    simp only [Split]
    split_ifs
    · simp
    · split <;> simp

/-- The first element of `Split` is the text before the first separator. -/
theorem Split_head (s : List Char) (sep : Char) :
    ∃ rest, Split s sep = s.takeWhile (fun c => c ≠ sep) :: rest := by
  induction s with
  | nil => exact ⟨[], by simp [Split]⟩
  | cons x s ih =>
    obtain ⟨rest, hr⟩ := ih
    by_cases h : x = sep
    · exact ⟨Split s sep, by simp [Split, h]⟩
    · exact ⟨rest, by simp [Split, h, hr]⟩

end GoStrings

namespace Models

open GoTime GoStrings Calendar Examples

/-! ## The codecs of `BirthDate` -/

theorem quote_ne_digit (c : Char) (h : digit c) : c ≠ '"' := by
  intro e; subst e; revert h; decide

theorem UnmarshalJSON_error (bd : BirthDate) (b : List Char) :
    (BirthDate.UnmarshalJSON bd b).2 = (Parse (Trim b '"')).2 := by
  unfold BirthDate.UnmarshalJSON
  rcases hp : Parse (Trim b '"') with ⟨t, _ | e⟩ <;> simp [hp]

theorem UnmarshalJSON_failed (bd : BirthDate) (b : List Char)
    (h : (BirthDate.UnmarshalJSON bd b).2 ≠ none) : (BirthDate.UnmarshalJSON bd b).1 = bd := by
  unfold BirthDate.UnmarshalJSON at h ⊢
  rcases hp : Parse (Trim b '"') with ⟨t, _ | e⟩
  · simp [hp] at h
  · simp [hp]

theorem UnmarshalJSON_of_Parse (bd : BirthDate) (b : List Char) (t : Time)
    (h : Parse (Trim b '"') = (t, none)) : BirthDate.UnmarshalJSON bd b = (t, none) := by
  unfold BirthDate.UnmarshalJSON
  simp [h]

/-- A valid ISO date string between runs of double quotes trims to itself. -/
theorem Trim_iso (s : List Char) (i j : Nat) (h : isISODate s) :
    Trim (List.replicate i '"' ++ s ++ List.replicate j '"') '"' = s := by
  obtain ⟨y, m, d, hf, _, _⟩ := Parse_iso s h
  obtain ⟨c0, c1, c2, c3, c5, c6, c8, c9, rfl, h0, _, _, _, _, _, _, h9, _⟩ :=
    isoFields_some s y m d hf
  exact Trim_wrapped '"' c0 c9 [c1, c2, c3, '-', c5, c6, '-', c8] i j (quote_ne_digit c0 h0)
    (quote_ne_digit c9 h9)

theorem UnmarshalJSON_iso (bd : BirthDate) (s : List Char) (i j : Nat) (y m d : Int)
    (hf : isoFields s = some (y, m, d)) (hv : validDate y m d) :
    BirthDate.UnmarshalJSON bd (List.replicate i '"' ++ s ++ List.replicate j '"')
      = (Date y m d 0 0 0 0, none) := by
  have hiso : isISODate s := by simp [isISODate, hf, hv]
  apply UnmarshalJSON_of_Parse
  rw [Trim_iso s i j hiso]
  exact Parse_fields s y m d hf hv

/-- Every value that `UnmarshalJSON` produces is the midnight UTC of a date of
the calendar with a year from 0 to 9999. -/
theorem UnmarshalJSON_value (bd d : BirthDate) (b : List Char)
    (h : BirthDate.UnmarshalJSON bd b = (d, none)) :
    ∃ y m dd : Int, validDate y m dd ∧ (0 ≤ y ∧ y ≤ 9999) ∧ d = Date y m dd 0 0 0 0 := by
  have hok : (Parse (Trim b '"')).2 = none := by
    rw [← UnmarshalJSON_error bd b, h]
  obtain ⟨y, m, dd, hf, hv, hp⟩ := Parse_iso _ ((Parse_ok_iff _).mp hok)
  refine ⟨y, m, dd, hv, (isoText_isoFields _ y m dd hf).2, ?_⟩
  rw [UnmarshalJSON_of_Parse bd b _ hp] at h
  exact (Prod.mk.inj h).1.symm

/-- C5 (as stated, refuted): the midnight of 10000-01-01 is encoded with a
five-digit year, which the decoder rejects; and a time of day is lost, so noon
of 1990-06-15 decodes to another value. -/
theorem C5_roundtrip_counterexample :
    BirthDate.UnmarshalJSON Time.zero (BirthDate.MarshalJSON (Date 10000 1 1 0 0 0 0)).1
        = (Time.zero, some ParseError.bad) ∧
    (BirthDate.UnmarshalJSON Time.zero (BirthDate.MarshalJSON (Date 1990 6 15 12 0 0 0)).1).1
        ≠ Date 1990 6 15 12 0 0 0 := by
  constructor <;> decide

/-- C5 (amended): for every `BirthDate` that is the midnight UTC of a date of
the calendar with a year from 0 to 9999, `UnmarshalJSON` of the bytes of
`MarshalJSON` succeeds and yields that value again. -/
theorem C5_decode_undoes_encode (bd : BirthDate) (y m d : Int) (hv : validDate y m d)
    (hy : 0 ≤ y ∧ y ≤ 9999) :
    BirthDate.UnmarshalJSON bd (BirthDate.MarshalJSON (Date y m d 0 0 0 0)).1
      = (Date y m d 0 0 0 0, none) := by
  have h31 := le_trans hv.2.2.2 (monthLength_le _ _)
  have hf := isoFields_isoText y m d hy ⟨by have := hv.1; omega, by have := hv.2.1; omega⟩
    ⟨by have := hv.2.2.1; omega, by omega⟩
  simp only [BirthDate.MarshalJSON, Format_Date y m d hv hy]
  exact UnmarshalJSON_iso bd (isoText y m d) 1 1 y m d hf hv

theorem C5_decode_undoes_encode_witness :
    BirthDate.UnmarshalJSON Time.zero (BirthDate.MarshalJSON (Date 1990 6 15 0 0 0 0)).1
      = (Date 1990 6 15 0 0 0 0, none) :=
  C5_decode_undoes_encode Time.zero 1990 6 15 (by decide) (by decide)

/-- C6: for every valid ISO date string `s`, `UnmarshalJSON` of `s` in double
quotes succeeds with a value whose `MarshalJSON` is `s` in double quotes again
and whose `String` is `s`. -/
theorem C6_encode_undoes_decode (bd : BirthDate) (s : List Char) (h : isISODate s) :
    ∃ d : BirthDate, BirthDate.UnmarshalJSON bd (['"'] ++ s ++ ['"']) = (d, none) ∧
      BirthDate.MarshalJSON d = (['"'] ++ s ++ ['"'], none) ∧ BirthDate.String d = s := by
  obtain ⟨y, m, d, hf, hv, _⟩ := Parse_iso s h
  obtain ⟨htext, hy⟩ := isoText_isoFields s y m d hf
  have hfmt : (Date y m d 0 0 0 0).Format = s := by rw [Format_Date y m d hv hy, htext]
  refine ⟨Date y m d 0 0 0 0, UnmarshalJSON_iso bd s 1 1 y m d hf hv, ?_, ?_⟩
  · simp only [BirthDate.MarshalJSON, hfmt]
  · simp only [BirthDate.String, BirthDate.Format, hfmt]

theorem C6_encode_undoes_decode_witness :
    ∃ d : BirthDate,
      BirthDate.UnmarshalJSON Time.zero (['"'] ++ "1990-06-15".toList ++ ['"']) = (d, none) ∧
      BirthDate.MarshalJSON d = (['"'] ++ "1990-06-15".toList ++ ['"'], none) ∧
      BirthDate.String d = "1990-06-15".toList :=
  C6_encode_undoes_decode Time.zero "1990-06-15".toList (by decide)

/-- C7 (as stated, refuted): a date without any quotes is accepted, and so is
a date within two pairs of quotes. -/
theorem C7_unmarshal_counterexample :
    BirthDate.UnmarshalJSON Time.zero "1990-06-15".toList = (Date 1990 6 15 0 0 0 0, none) ∧
    BirthDate.UnmarshalJSON Time.zero "\"\"1990-06-15\"\"".toList
      = (Date 1990 6 15 0 0 0 0, none) := by
  constructor <;> decide

/-- C7 (amended): `UnmarshalJSON` succeeds exactly on the inputs that are a
valid `YYYY-MM-DD` date with any number of double quotes, none included, before
it and after it; on every other input, such as a date-time string, another
separator or field order, missing zero padding, an impossible day or trailing
text, it returns an error and leaves the receiver unchanged. -/
theorem C7_unmarshal_accepts (bd : BirthDate) (b : List Char) :
    ((BirthDate.UnmarshalJSON bd b).2 = none ↔
      ∃ (i j : Nat) (s : List Char),
        isISODate s ∧ b = List.replicate i '"' ++ s ++ List.replicate j '"') ∧
    ((BirthDate.UnmarshalJSON bd b).2 ≠ none → (BirthDate.UnmarshalJSON bd b).1 = bd) ∧
    (BirthDate.UnmarshalJSON bd "\"1990-06-15T00:00:00Z\"".toList).2 ≠ none ∧
    (BirthDate.UnmarshalJSON bd "\"15/06/1990\"".toList).2 ≠ none ∧
    (BirthDate.UnmarshalJSON bd "\"1990-6-15\"".toList).2 ≠ none ∧
    (BirthDate.UnmarshalJSON bd "\"1990-02-30\"".toList).2 ≠ none ∧
    (BirthDate.UnmarshalJSON bd "\"1990-06-15 \"".toList).2 ≠ none := by
  refine ⟨?_, UnmarshalJSON_failed bd b, ?_, ?_, ?_, ?_, ?_⟩
  · rw [UnmarshalJSON_error, Parse_ok_iff]
    constructor
    · intro h
      obtain ⟨i, j, e⟩ := Trim_split '"' b
      exact ⟨i, j, Trim b '"', h, e⟩
    · rintro ⟨i, j, s, hs, rfl⟩
      rw [Trim_iso s i j hs]
      exact hs
  all_goals (rw [UnmarshalJSON_error]; decide)

theorem Scan_string (bd : BirthDate) (v : List Char) :
    BirthDate.Scan bd (.string v) =
      .ret (match Parse (beforeSpace v) with
        | (_, some err) => (bd, some err)
        | (t, none) => (t, none)) := by
  obtain ⟨rest, hr⟩ := Split_head v ' '
  simp only [BirthDate.Scan, hr, beforeSpace]
  rcases hp : Parse (List.takeWhile (fun c => decide (c ≠ ' ')) v) with ⟨t, _ | e⟩ <;> simp [hp]

theorem beforeSpace_iso (s rest : List Char) (h : isISODate s) :
    beforeSpace (s ++ ' ' :: rest) = s ∧ beforeSpace s = s := by
  obtain ⟨y, m, d, hf, _, _⟩ := Parse_iso s h
  obtain ⟨c0, c1, c2, c3, c5, c6, c8, c9, rfl, h0, h1, h2, h3, h5, h6, h8, h9, _⟩ :=
    isoFields_some s y m d hf
  have ns : ∀ c, digit c → c ≠ ' ' := by
    intro c hc e; subst e; revert hc; decide
  have n0 := ns c0 h0
  have n1 := ns c1 h1
  have n2 := ns c2 h2
  have n3 := ns c3 h3
  have n5 := ns c5 h5
  have n6 := ns c6 h6
  have n8 := ns c8 h8
  have n9 := ns c9 h9
  constructor <;> simp [beforeSpace, List.takeWhile, n0, n1, n2, n3, n5, n6, n8, n9]

/-- C8: `Scan` of a stored string looks only at the part before the first
space.  If that part is a valid `YYYY-MM-DD` date, `Scan` succeeds with the
date that text decoding of the part yields, so a date followed by a space and a
time scans to the same value as the date alone; otherwise `Scan` returns an
error and leaves the receiver unchanged. -/
theorem C8_scan_leading_date (bd : BirthDate) (v : List Char) :
    (isISODate (beforeSpace v) →
      ∃ d : BirthDate, BirthDate.Scan bd (.string v) = .ret (d, none) ∧
        BirthDate.UnmarshalJSON bd (['"'] ++ beforeSpace v ++ ['"']) = (d, none)) ∧
    (¬ isISODate (beforeSpace v) →
      ∃ e, BirthDate.Scan bd (.string v) = .ret (bd, some e)) ∧
    (∀ s rest : List Char, isISODate s →
      BirthDate.Scan bd (.string (s ++ ' ' :: rest)) = BirthDate.Scan bd (.string s)) := by
  refine ⟨?_, ?_, ?_⟩
  · intro h
    obtain ⟨y, m, d, hf, hv, hp⟩ := Parse_iso _ h
    refine ⟨Date y m d 0 0 0 0, ?_, UnmarshalJSON_iso bd _ 1 1 y m d hf hv⟩
    rw [Scan_string, hp]
  · intro h
    obtain ⟨e, he⟩ := Parse_error _ h
    refine ⟨e, ?_⟩
    rw [Scan_string]
    rcases hp : Parse (beforeSpace v) with ⟨t, _ | e2⟩
    · rw [hp] at he; simp at he
    · rw [hp] at he
      simp only [Option.some.injEq] at he
      simp [he]
  · intro s rest hs
    obtain ⟨e1, e2⟩ := beforeSpace_iso s rest hs
    rw [Scan_string, Scan_string, e1, e2]

theorem C8_scan_leading_date_witness :
    (∃ d : BirthDate,
      BirthDate.Scan Time.zero (.string "1990-06-15 00:00:00+00:00".toList) = .ret (d, none) ∧
      BirthDate.UnmarshalJSON Time.zero
        (['"'] ++ beforeSpace "1990-06-15 00:00:00+00:00".toList ++ ['"']) = (d, none)) ∧
    (∃ e, BirthDate.Scan Time.zero (.string "15/06/1990 00:00:00".toList)
      = .ret (Time.zero, some e)) :=
  ⟨(C8_scan_leading_date Time.zero "1990-06-15 00:00:00+00:00".toList).1 (by decide),
   (C8_scan_leading_date Time.zero "15/06/1990 00:00:00".toList).2.1 (by decide)⟩

/-- C10 (the code at the failing inputs): `Scan` panics on the time value that
`Value` itself returns, on bytes and on nil, whatever they hold; on a string it
always returns. -/
theorem C10_scan_panics_unless_string :
    (∀ bd d : BirthDate, BirthDate.Scan bd (BirthDate.Value d).1 = .panic) ∧
    (∀ (bd : BirthDate) (b : List Char), BirthDate.Scan bd (.bytes b) = .panic) ∧
    (∀ bd : BirthDate, BirthDate.Scan bd .null = .panic) ∧
    (∀ (bd : BirthDate) (v : List Char), BirthDate.Scan bd (.string v) ≠ .panic) := by
  refine ⟨fun _ _ => rfl, fun _ _ => rfl, fun _ => rfl, ?_⟩
  intro bd v
  rw [Scan_string]
  simp

end Models

namespace Conf

open GoTime GoStrings Models Calendar Examples

/-! ## The upsert of `PersonsBirthday` -/

theorem create_eq (db : DB) (p : Person) (now : Time) :
    ∃ q : Person, q.Name = p.Name ∧ (p.ID = 0 → q.ID = db.seq + 1) ∧
      create db p now =
        if namesUnique (db.rows ++ [q]) ∧ idsUnique (db.rows ++ [q]) then
          ⟨db.rows ++ [q], max db.seq q.ID⟩
        else db := by
  refine ⟨{ p with
    CreatedAt := if p.CreatedAt = Time.zero then now else p.CreatedAt
    UpdatedAt := if p.UpdatedAt = Time.zero then now else p.UpdatedAt
    ID := if p.ID = 0 then db.seq + 1 else p.ID }, rfl, ?_, rfl⟩
  intro h
  simp [h]

theorem create_rows (db : DB) (p : Person) (now : Time) :
    (create db p now).rows = db.rows ∨
      (∃ q : Person, q.Name = p.Name ∧ (p.ID = 0 → q.ID = db.seq + 1) ∧
        (create db p now).rows = db.rows ++ [q] ∧ namesUnique (db.rows ++ [q]) ∧
        idsUnique (db.rows ++ [q])) := by
  obtain ⟨q, hn, hi, e⟩ := create_eq db p now
  rw [e]
  by_cases h : namesUnique (db.rows ++ [q]) ∧ idsUnique (db.rows ++ [q])
  · rw [if_pos h]
    right
    exact ⟨q, hn, hi, rfl, h.1, h.2⟩
  · rw [if_neg h]
    left; rfl

theorem create_namesUnique (db : DB) (p : Person) (now : Time) (hu : namesUnique db.rows) :
    namesUnique (create db p now).rows := by
  rcases create_rows db p now with h | ⟨q, _, _, h, hn, _⟩
  · rw [h]; exact hu
  · rw [h]; exact hn

theorem update_namesUnique (db : DB) (p : Person) (now : Time) (hu : namesUnique db.rows) :
    namesUnique (update db p now).1.rows := by
  unfold update
  simp only
  split_ifs with h
  · exact h
  · exact hu

theorem Save_namesUnique (db : DB) (p : Person) (now : Time) (hu : namesUnique db.rows) :
    namesUnique (Save db p now).rows := by
  unfold Save
  split_ifs with h
  · split
    next db1 affected failed he =>
      split_ifs
      · exact create_namesUnique db p now hu
      · have := update_namesUnique db p now hu
        rw [he] at this
        exact this
  · exact create_namesUnique db p now hu

/-- Every `PUT` keeps the names unique. -/
theorem PersonsBirthday_namesUnique (db : DB) (now : Time) (name : String) (body : Body)
    (hu : namesUnique db.rows) : namesUnique (PersonsBirthday db now name body).1.rows := by
  unfold PersonsBirthday
  simp only
  split
  · exact hu
  · exact Save_namesUnique _ _ _ hu

theorem leastID_mem (l : List Person) (r : Person) (h : leastID l = some r) : r ∈ l := by
  induction l generalizing r with
  | nil => simp [leastID] at h
  | cons x xs ih =>
    simp only [leastID] at h
    rcases hx : leastID xs with _ | m
    · simp only [hx, Option.some.injEq] at h
      subst h; exact List.mem_cons_self _ _
    · simp only [hx] at h
      split_ifs at h
      · simp only [Option.some.injEq] at h
        subst h; exact List.mem_cons_self _ _
      · simp only [Option.some.injEq] at h
        subst h; exact List.mem_cons_of_mem _ (ih m hx)

theorem leastID_nil (l : List Person) (h : leastID l = none) : l = [] := by
  cases l with
  | nil => rfl
  | cons x xs =>
    simp only [leastID] at h
    rcases hx : leastID xs with _ | m
    · simp [hx] at h
    · simp only [hx] at h
      split_ifs at h

/-- What `First` finds for a non-empty name: a live row of that name, or
nothing when the table has no live row of that name. -/
theorem First_cases (db : DB) (name : String) (hname : name ≠ "") :
    (∃ r, First db { Name := name } = r ∧ r ∈ db.rows ∧ r.DeletedAt = none ∧ r.Name = name) ∨
    (First db { Name := name } = { Name := name } ∧
      ∀ r ∈ db.rows, r.Name = name → r.DeletedAt ≠ none) := by
  unfold First
  rcases h : leastID (whereName db name) with _ | r
  · right
    refine ⟨rfl, ?_⟩
    intro r hr hn hd
    have hempty := leastID_nil _ h
    have : r ∈ whereName db name := by
      unfold whereName
      simp [hr, hn, hd]
    rw [hempty] at this
    simp at this
  · left
    have hm := leastID_mem _ r h
    unfold whereName at hm
    simp only [List.mem_filter, decide_eq_true_eq] at hm
    refine ⟨r, rfl, hm.1, hm.2.1, ?_⟩
    rcases hm.2.2 with e | e
    · exact absurd e hname
    · exact e

theorem decodeObject_birthOnly (ms : List Member) (hb : ∀ m ∈ ms, m.birthOnly = true)
    (p : Person) (saved : Option DecodeError) :
    (decodeObject ms p saved).1.ID = p.ID ∧ (decodeObject ms p saved).1.Name = p.Name ∧
      (decodeObject ms p saved).1.DeletedAt = p.DeletedAt := by
  induction ms generalizing p saved with
  | nil => simp [decodeObject]
  | cons m ms ih =>
    have hm := hb m (List.mem_cons_self _ _)
    have hrest : ∀ x ∈ ms, x.birthOnly = true := fun x hx => hb x (List.mem_cons_of_mem _ hx)
    cases m with
    | dateOfBirth raw =>
      simp only [decodeObject]
      rcases hu : BirthDate.UnmarshalJSON p.BirthDate raw with ⟨bd, _ | e⟩
      · simp only
        exact ih hrest _ _
      · simp
    | other =>
      simp only [decodeObject]
      exact ih hrest _ _
    | name v => simp [Member.birthOnly] at hm
    | id v => simp [Member.birthOnly] at hm
    | createdAt v => simp [Member.birthOnly] at hm
    | updatedAt v => simp [Member.birthOnly] at hm
    | deletedAt v => simp [Member.birthOnly] at hm

/-- The table after a `PUT` whose body sets the birth date only: unchanged, or
saved with a person that has the key, the name and the deletion mark that
`First` left in the struct. -/
theorem PersonsBirthday_birthOnly (db : DB) (now : Time) (name : String) (ms : List Member)
    (hb : ∀ m ∈ ms, m.birthOnly = true) :
    ((PersonsBirthday db now name (.object ms)).1 = db ∧
      (PersonsBirthday db now name (.object ms)).2.code = StatusBadRequest) ∨
    ∃ q : Person, q.ID = (First db { Name := name }).ID ∧
      q.Name = (First db { Name := name }).Name ∧
      q.DeletedAt = (First db { Name := name }).DeletedAt ∧
      (PersonsBirthday db now name (.object ms)).1 = Save db q now := by
  obtain ⟨h1, h2, h3⟩ := decodeObject_birthOnly ms hb (First db { Name := name }) none
  unfold PersonsBirthday
  simp only [Decode]
  rcases hd : decodeObject ms (First db { Name := name }) none with ⟨q, _ | e⟩
  · right
    rw [hd] at h1 h2 h3
    exact ⟨q, h1, h2, h3, rfl⟩
  · left; exact ⟨rfl, rfl⟩

theorem not_nodup_append_mem (l : List String) (n : String) (h : n ∈ l) : ¬ (l ++ [n]).Nodup := by
  intro hn
  rw [List.nodup_append] at hn
  exact hn.2.2 h (List.mem_singleton_self n)

/-- An insert under a name that the table holds already changes nothing. -/
theorem create_blocked (db : DB) (p : Person) (now : Time)
    (h : p.Name ∈ db.rows.map (fun r => r.Name)) : (create db p now).rows = db.rows := by
  rcases create_rows db p now with e | ⟨q, hn, _, _, hu, _⟩
  · exact e
  · exfalso
    unfold namesUnique at hu
    rw [List.map_append, List.map_singleton, hn] at hu
    exact not_nodup_append_mem _ _ h hu

/-- Saving a person that carries the key and the name of a live row leaves the
names of the table as they are. -/
theorem Save_existing (db : DB) (q r : Person) (now : Time) (hr : r ∈ db.rows)
    (hlive : r.DeletedAt = none) (hid : q.ID = r.ID) (hname : q.Name = r.Name) :
    (Save db q now).rows.map (fun x => x.Name) = db.rows.map (fun x => x.Name) := by
  have hmem : q.Name ∈ db.rows.map (fun x => x.Name) := by
    rw [hname]; exact List.mem_map.mpr ⟨r, hr, rfl⟩
  unfold Save
  split_ifs with h0
  swap
  · rw [create_blocked db q now hmem]
  unfold update
  simp only
  by_cases hu : namesUnique (db.rows.map (fun x =>
      if x.DeletedAt = none ∧ x.ID = q.ID then { q with UpdatedAt := now } else x))
  · rw [if_pos hu]
    have haff : (db.rows.filter (fun x => decide (x.DeletedAt = none ∧ x.ID = q.ID))).length ≠ 0 := by
      intro h
      have hnil := List.length_eq_zero.mp h
      have : r ∈ db.rows.filter (fun x => decide (x.DeletedAt = none ∧ x.ID = q.ID)) := by
        simp [hr, hlive, hid]
      rw [hnil] at this
      simp at this
    simp only [Bool.not_false, Bool.true_and, decide_eq_true_eq, haff, if_false]
    -- every row that is hit is the row `r`
    unfold namesUnique at hu
    rw [List.map_map] at hu
    have hinj := List.inj_on_of_nodup_map hu
    rw [List.map_map]
    apply List.map_congr_left
    intro x hx
    simp only [Function.comp]
    by_cases hit : x.DeletedAt = none ∧ x.ID = q.ID
    · have hrhit : r.DeletedAt = none ∧ r.ID = q.ID := ⟨hlive, hid.symm⟩
      have e := hinj hx hr (by simp only [Function.comp, hit, hrhit, and_self, if_true])
      simp only [hit, and_self, if_true]
      rw [hname, e]
    · simp only [hit, if_false]
  · rw [if_neg hu]
    simp

theorem count_le_one (db : DB) (name : String) (hu : namesUnique db.rows) :
    db.rowsNamed name ≤ 1 :=
  List.nodup_iff_count_le_one.mp hu name

theorem rowsNamed_pos (db : DB) (name : String) :
    0 < db.rowsNamed name ↔ ∃ r ∈ db.rows, r.Name = name := by
  unfold DB.rowsNamed
  rw [List.count_pos_iff]
  simp [List.mem_map]

/-- A `PUT` for a name that the table holds leaves the names of the table as
they are, when its body sets the birth date only. -/
theorem PersonsBirthday_existing (db : DB) (now : Time) (name : String) (ms : List Member)
    (hb : ∀ m ∈ ms, m.birthOnly = true) (hname : name ≠ "") (hpos : 0 < db.rowsNamed name) :
    (PersonsBirthday db now name (.object ms)).1.rows.map (fun x => x.Name)
      = db.rows.map (fun x => x.Name) := by
  rcases PersonsBirthday_birthOnly db now name ms hb with ⟨e, _⟩ | ⟨q, hid, hn, hdel, e⟩
  · rw [e]
  rw [e]
  rcases First_cases db name hname with ⟨r, hf, hr, hlive, hrn⟩ | ⟨hf, _⟩
  · rw [hf] at hid hn
    exact Save_existing db q r now hr hlive hid hn
  · rw [hf] at hid hn
    have hmem : q.Name ∈ db.rows.map (fun x => x.Name) := by
      obtain ⟨r, hr, hrn⟩ := (rowsNamed_pos db name).mp hpos
      rw [hn]
      exact List.mem_map.mpr ⟨r, hr, hrn⟩
    have hz : q.ID = 0 := hid
    unfold Save
    rw [if_neg (by simp [hz]), create_blocked db q now hmem]

theorem First_fresh (db : DB) (name : String) (hname : name ≠ "")
    (hnone : ∀ r ∈ db.rows, r.Name ≠ name) : First db { Name := name } = { Name := name } := by
  rcases First_cases db name hname with ⟨r, _, hr, _, hrn⟩ | ⟨hf, _⟩
  · exact absurd hrn (hnone r hr)
  · exact hf

/-- A successful `PUT` for a name that the table does not hold inserts one row
of that name, when its body sets the birth date only. -/
theorem PersonsBirthday_fresh (db : DB) (now : Time) (name : String) (ms : List Member)
    (hb : ∀ m ∈ ms, m.birthOnly = true) (hname : name ≠ "") (hwf : db.wellFormed)
    (hok : (PersonsBirthday db now name (.object ms)).2.code = StatusNoContent)
    (hzero : db.rowsNamed name = 0) :
    (PersonsBirthday db now name (.object ms)).1.rowsNamed name = 1 := by
  obtain ⟨hu, hids, hseq⟩ := hwf
  have hnone : ∀ r ∈ db.rows, r.Name ≠ name := by
    intro r hr hn
    have := (rowsNamed_pos db name).mpr ⟨r, hr, hn⟩
    omega
  have hfirst := First_fresh db name hname hnone
  rcases PersonsBirthday_birthOnly db now name ms hb with ⟨_, hc⟩ | ⟨q, hid, hn, _, e⟩
  · rw [hc] at hok
    exact absurd hok (by decide)
  rw [hfirst] at hid hn
  have hz : q.ID = 0 := hid
  have hqn : q.Name = name := hn
  rw [e]
  unfold Save
  rw [if_neg (by simp [hz])]
  obtain ⟨q2, hn2, hi2, ec⟩ := create_eq db q now
  have hid2 : q2.ID = db.seq + 1 := hi2 hz
  have hnames : namesUnique (db.rows ++ [q2]) := by
    unfold namesUnique at hu ⊢
    rw [List.map_append, List.map_singleton, List.nodup_append]
    refine ⟨hu, List.nodup_singleton _, ?_⟩
    intro a ha hb2
    rw [List.mem_singleton] at hb2
    obtain ⟨r, hr, hra⟩ := List.mem_map.mp ha
    exact hnone r hr (by rw [hra, hb2, hn2, hqn])
  have hidsu : idsUnique (db.rows ++ [q2]) := by
    unfold idsUnique at hids ⊢
    rw [List.map_append, List.map_singleton, List.nodup_append]
    refine ⟨hids, List.nodup_singleton _, ?_⟩
    intro a ha hb2
    rw [List.mem_singleton] at hb2
    obtain ⟨r, hr, hra⟩ := List.mem_map.mp ha
    have := hseq r hr
    omega
  rw [ec, if_pos ⟨hnames, hidsu⟩]
  unfold DB.rowsNamed at hzero ⊢
  simp only [List.map_append, List.map_singleton, List.count_append, hzero, hn2, hqn]
  simp

/-- C3 (as stated, refuted): two `PUT /Frank` with the body
`{"dateOfBirth":"15/06/1990"}` are both answered with 400 and leave no row for
Frank; two `PUT /Alice` with the body `{"name":"Bob","dateOfBirth":"1990-06-15"}`
are both answered with 204 and leave no row for Alice. -/
theorem C3_upsert_counterexample :
    ((PersonsBirthday emptyTable noon "Frank" slashBody).2.code = 400 ∧
      (PersonsBirthday (PersonsBirthday emptyTable noon "Frank" slashBody).1 noon "Frank"
        slashBody).1.rowsNamed "Frank" = 0) ∧
    ((PersonsBirthday emptyTable noon "Alice" renameBody).2.code = 204 ∧
      (PersonsBirthday (PersonsBirthday emptyTable noon "Alice" renameBody).1 noon "Alice"
        renameBody).2.code = 204 ∧
      (PersonsBirthday (PersonsBirthday emptyTable noon "Alice" renameBody).1 noon "Alice"
        renameBody).1.rowsNamed "Alice" = 0) := by
  decide

/-- C3 (amended): from a table in which every name occurs at most once, a
`PUT /{Name}` leaves a table in which every name occurs at most once; and two
consecutive `PUT`s for the same name with the same body, when the first is
answered with 204 and the body sets no field of the person but the birth date,
leave exactly one row for that name, with as many rows after the second as
after the first. -/
theorem C3_upsert_keeps_names_unique :
    (∀ (db : DB) (now : Time) (name : String) (body : Body),
      namesUnique db.rows → namesUnique (PersonsBirthday db now name body).1.rows) ∧
    (∀ (db : DB) (now1 now2 : Time) (name : String) (ms : List Member),
      db.wellFormed → name ≠ "" → (∀ m ∈ ms, m.birthOnly = true) →
      (PersonsBirthday db now1 name (.object ms)).2.code = StatusNoContent →
      (PersonsBirthday (PersonsBirthday db now1 name (.object ms)).1 now2 name
          (.object ms)).1.rowsNamed name = 1 ∧
      (PersonsBirthday (PersonsBirthday db now1 name (.object ms)).1 now2 name
          (.object ms)).1.rows.length
        = (PersonsBirthday db now1 name (.object ms)).1.rows.length) := by
  refine ⟨PersonsBirthday_namesUnique, ?_⟩
  intro db now1 now2 name ms hwf hname hb hok
  have hone : (PersonsBirthday db now1 name (.object ms)).1.rowsNamed name = 1 := by
    by_cases hz : db.rowsNamed name = 0
    · exact PersonsBirthday_fresh db now1 name ms hb hname hwf hok hz
    · have hpos : 0 < db.rowsNamed name := by omega
      have e := PersonsBirthday_existing db now1 name ms hb hname hpos
      have hle := count_le_one db name hwf.1
      unfold DB.rowsNamed at *
      rw [e]; omega
  have e2 := PersonsBirthday_existing (PersonsBirthday db now1 name (.object ms)).1 now2 name ms
    hb hname (by omega)
  constructor
  · unfold DB.rowsNamed at *
    rw [e2]; exact hone
  · have := congrArg List.length e2
    simpa using this

theorem C3_upsert_keeps_names_unique_witness :
    namesUnique (PersonsBirthday emptyTable noon "Alice" birthBody).1.rows ∧
    (PersonsBirthday (PersonsBirthday emptyTable noon "Alice" birthBody).1 noon "Alice"
        birthBody).1.rowsNamed "Alice" = 1 ∧
    (PersonsBirthday (PersonsBirthday emptyTable noon "Alice" birthBody).1 noon "Alice"
        birthBody).1.rows.length
      = (PersonsBirthday emptyTable noon "Alice" birthBody).1.rows.length :=
  ⟨C3_upsert_keeps_names_unique.1 emptyTable noon "Alice" birthBody (by decide),
   C3_upsert_keeps_names_unique.2 emptyTable noon noon "Alice"
     [.dateOfBirth "\"1990-06-15\"".toList] (by decide) (by decide) (by decide) (by decide)⟩

/-- C4 (the code at the failing input): `PUT /Alice` with the body
`{"name":"Bob","dateOfBirth":"1990-06-15"}` is answered with 204 and saves a
person named Bob: into an empty table it inserts Bob, and in a table that
holds Alice it renames her row. -/
theorem C4_body_name_replaces_url_name :
    (PersonsBirthday emptyTable noon "Alice" renameBody).2.code = 204 ∧
    (PersonsBirthday emptyTable noon "Alice" renameBody).1.rows.map (fun r => (r.ID, r.Name))
      = [(1, "Bob")] ∧
    (PersonsBirthday (table alice) noon "Alice" renameBody).1.rows.map (fun r => (r.ID, r.Name))
      = [(1, "Bob")] := by
  decide

end Conf

namespace GoTime

open Calendar

/-! ## The order of the days of a year and of the years -/

theorem daysSinceEpoch_mono (a b : Int) (h : a ≤ b) : daysSinceEpoch a ≤ daysSinceEpoch b := by
  refine @Int.le_induction (fun n => daysSinceEpoch a ≤ daysSinceEpoch n) a (le_refl _) ?_ b h
  intro n _ ih
  have := daysSinceEpoch_succ n
  simp only at ih ⊢
  split_ifs at this <;> omega

theorem not_both_leap (y : Int) (h : isLeap y = true) : ¬ isLeap (y + 1) = true := by
  rw [isLeap_iff] at h ⊢
  omega

/-- A month and day other than February 29 is a date in every year. -/
theorem validDate_any_year (y0 y m d : Int) (h : validDate y0 m d) (hne : (m, d) ≠ (2, 29)) :
    validDate y m d := by
  obtain ⟨h1, h2, h3, h4⟩ := h
  refine ⟨h1, h2, h3, ?_⟩
  unfold monthLength at h4 ⊢
  by_cases hm : m = 2
  · subst hm
    have hd : d ≠ 29 := fun e => hne (by rw [e])
    simp only [if_true] at h4 ⊢
    split_ifs at h4 ⊢ <;> omega
  · simpa only [hm, if_false] using h4

/-- Within one year the day of the year grows with the month and day. -/
theorem yearDay_lt (y m d m2 d2 : Int) (h : validDate y m d) (h2 : validDate y m2 d2)
    (hlt : m < m2 ∨ (m = m2 ∧ d < d2)) : yearDay y m d < yearDay y m2 d2 := by
  obtain ⟨v0, v1, v2, v3, v4, v5, v6, v7, v8, v9, v10, v11, v12⟩ := daysBeforeAt_vals
  obtain ⟨a1, a2, a3, a4⟩ := h
  obtain ⟨b1, b2, b3, b4⟩ := h2
  unfold monthLength at a4 b4
  unfold yearDay
  by_cases hl : isLeap y = true
  · have hl2 : leapYear y := (isLeap_eq_leapYear y).mp hl
    interval_cases m <;>
      simp [hl, hl2, v0, v1, v2, v3, v4, v5, v6, v7, v8, v9, v10, v11, v12] at a4 ⊢ <;>
      interval_cases m2 <;>
      simp [hl, hl2, v0, v1, v2, v3, v4, v5, v6, v7, v8, v9, v10, v11, v12] at b4 ⊢ <;>
      omega
  · have hl2 : ¬ leapYear y := fun h => hl ((isLeap_eq_leapYear y).mpr h)
    interval_cases m <;>
      simp [hl, hl2, v0, v1, v2, v3, v4, v5, v6, v7, v8, v9, v10, v11, v12] at a4 ⊢ <;>
      interval_cases m2 <;>
      simp [hl, hl2, v0, v1, v2, v3, v4, v5, v6, v7, v8, v9, v10, v11, v12] at b4 ⊢ <;>
      omega

/-- From one year to the next the day of the year of a month and day moves by
the leap day only. -/
theorem yearDay_next_year (y m d : Int) :
    yearDay (y + 1) m d + (if isLeap y = true then 1 else 0) ≤ yearDay y m d + 1 := by
  unfold yearDay
  by_cases hl : isLeap y = true
  · have hn := not_both_leap y hl
    rw [if_neg (fun h => hn h.1), if_pos hl]
    split_ifs <;> omega
  · have e : (if isLeap y = true ∧ m ≥ 3 then (1 : Int) else 0) = 0 := if_neg (fun h => hl h.1)
    rw [e, if_neg hl]
    split_ifs <;> omega

/-- The day number of a date lies within its year. -/
theorem dayNumber_in_year (y m d : Int) (h : validDate y m d) :
    daysSinceEpoch y ≤ dayNumber y m d ∧ dayNumber y m d < daysSinceEpoch (y + 1) := by
  have b := yearDay_bounds y m d h
  rw [dayNumber_eq, daysSinceEpoch_succ]
  omega

end GoTime

namespace Conf

open GoTime GoStrings Models Calendar Examples

/-! ## The next birthday of `BirthdayMessage` -/

/-- The day number of a month and day grows with the year. -/
theorem dayNumber_mono_year (a b m d : Int) (ha : validDate a m d) (hb : validDate b m d)
    (h : a ≤ b) : dayNumber a m d ≤ dayNumber b m d := by
  by_cases e : a = b
  · rw [e]
  · have h1 := dayNumber_in_year a m d ha
    have h2 := dayNumber_in_year b m d hb
    have h3 := daysSinceEpoch_mono (a + 1) b (by omega)
    omega

/-- The bounds of the day difference for a birth date other than February 29:
it is zero on the birthday and from 1 to 365 on every other day. -/
theorem dayDifference_bounds (birth now : Time) (hnot : birth.Date.2 ≠ (2, 29)) :
    (now.Date.2 = birth.Date.2 ∧ dayDifference birth now = 0) ∨
    (now.Date.2 ≠ birth.Date.2 ∧ 1 ≤ dayDifference birth now ∧ dayDifference birth now ≤ 365) := by
  have hb := Time.Date_valid birth
  have hn := Time.Date_valid now
  have hvT : validDate now.Date.1 birth.Date.2.1 birth.Date.2.2 :=
    validDate_any_year _ _ _ _ hb hnot
  have hvN : validDate (now.Date.1 + 1) birth.Date.2.1 birth.Date.2.2 :=
    validDate_any_year _ _ _ _ hb hnot
  have hdd := dayDifference_eq birth now
  have hy := chosenYear_eq birth now
  have e1 := dayNumber_eq now.Date.1 now.Date.2.1 now.Date.2.2
  have e2 := dayNumber_eq now.Date.1 birth.Date.2.1 birth.Date.2.2
  have e3 := dayNumber_eq (now.Date.1 + 1) birth.Date.2.1 birth.Date.2.2
  have b1 := yearDay_bounds _ _ _ hn
  have b2 := yearDay_bounds _ _ _ hvT
  have b3 := yearDay_bounds _ _ _ hvN
  by_cases hpassed : (birth.Date.2.2 < now.Date.2.2 ∧ birth.Date.2.1 = now.Date.2.1)
      ∨ birth.Date.2.1 < now.Date.2.1
  · rw [if_pos hpassed] at hy
    right
    have hlt := yearDay_lt _ _ _ _ _ hvT hn (by tauto)
    have hs := daysSinceEpoch_succ now.Date.1
    have hnx := yearDay_next_year now.Date.1 birth.Date.2.1 birth.Date.2.2
    refine ⟨?_, ?_, ?_⟩
    · intro e
      have em : now.Date.2.1 = birth.Date.2.1 := by rw [e]
      have ed : now.Date.2.2 = birth.Date.2.2 := by rw [e]
      omega
    · rw [hdd, hy, e3, e1, hs]
      split_ifs at b1 hs hnx ⊢ <;> omega
    · rw [hdd, hy, e3, e1, hs]
      split_ifs at b1 hs hnx ⊢ <;> omega
  · rw [if_neg hpassed] at hy
    by_cases heq : now.Date.2.1 = birth.Date.2.1 ∧ now.Date.2.2 = birth.Date.2.2
    · left
      refine ⟨Prod.ext heq.1 heq.2, ?_⟩
      rw [hdd, hy, heq.1, heq.2]; omega
    · right
      have hlt := yearDay_lt _ _ _ _ _ hn hvT (by omega)
      refine ⟨?_, ?_, ?_⟩
      · intro e
        exact heq ⟨by rw [e], by rw [e]⟩
      · rw [hdd, hy, e2, e1]; omega
      · rw [hdd, hy, e2, e1]
        split_ifs at b1 b2 <;> omega

/-- No date with the month and day of the birth date lies between today and
the next occurrence that the message rule chooses. -/
theorem nextOccurrence_least (birth now : Time) (hnot : birth.Date.2 ≠ (2, 29)) (j : Nat)
    (hj : (daysAhead j now.Date).2 = birth.Date.2) :
    dayNumber (chosenYear birth now) birth.Date.2.1 birth.Date.2.2
      ≤ dayNumber now.Date.1 now.Date.2.1 now.Date.2.2 + j := by
  have hb := Time.Date_valid birth
  have hn := Time.Date_valid now
  obtain ⟨hvj, hdj⟩ := daysAhead_spec j now.Date.1 now.Date.2.1 now.Date.2.2 hn
  have hm : (daysAhead j now.Date).2.1 = birth.Date.2.1 := by rw [hj]
  have hd : (daysAhead j now.Date).2.2 = birth.Date.2.2 := by rw [hj]
  have hvj2 : validDate (daysAhead j now.Date).1 birth.Date.2.1 birth.Date.2.2 := by
    have := hvj; rw [hm, hd] at this; exact this
  have hdj2 : dayNumber (daysAhead j now.Date).1 birth.Date.2.1 birth.Date.2.2
      = dayNumber now.Date.1 now.Date.2.1 now.Date.2.2 + j := by
    have := hdj; rw [hm, hd] at this; exact this
  have hvY : validDate (chosenYear birth now) birth.Date.2.1 birth.Date.2.2 :=
    validDate_any_year _ _ _ _ hb hnot
  have hvT : validDate now.Date.1 birth.Date.2.1 birth.Date.2.2 :=
    validDate_any_year _ _ _ _ hb hnot
  have hT := dayNumber_in_year _ _ _ hn
  by_cases hge : chosenYear birth now ≤ (daysAhead j now.Date).1
  · have := dayNumber_mono_year _ _ _ _ hvY hvj2 hge
    omega
  · exfalso
    have hin := dayNumber_in_year _ _ _ hvj2
    by_cases hbefore : (daysAhead j now.Date).1 < now.Date.1
    · have := daysSinceEpoch_mono ((daysAhead j now.Date).1 + 1) now.Date.1 (by omega)
      omega
    · -- the year of today, so the birthday has passed this year
      have hy := chosenYear_eq birth now
      have hsame : (daysAhead j now.Date).1 = now.Date.1 := by
        rcases chosenYear_cases birth now with h | h <;> omega
      by_cases hpassed : (birth.Date.2.2 < now.Date.2.2 ∧ birth.Date.2.1 = now.Date.2.1)
          ∨ birth.Date.2.1 < now.Date.2.1
      · have hlt := yearDay_lt _ _ _ _ _ hvT hn (by tauto)
        have e1 := dayNumber_eq now.Date.1 now.Date.2.1 now.Date.2.2
        have e2 := dayNumber_eq now.Date.1 birth.Date.2.1 birth.Date.2.2
        rw [hsame] at hdj2
        omega
      · rw [if_neg hpassed] at hy
        omega

/-- C11: for a birth date whose month and day is not February 29, the date
that `BirthdayMessage` computes as the next birthday (next year's when the
month and day have passed this year, else this year's) is a date of the
calendar with the month and day of the birth date, it lies `dd` days ahead of
today with `dd` not negative, and no date with that month and day lies fewer
days ahead: it is the earliest such date on or after today.  The day
difference is at most 365 and is zero exactly when today is the birthday. -/
theorem C11_next_birthday_is_earliest (birth now : Time) (hnot : birth.Date.2 ≠ (2, 29)) :
    (nextBirthday birth now).Date = nextOccurrence birth.Date now.Date ∧
    isDate (nextOccurrence birth.Date now.Date) ∧
    (nextOccurrence birth.Date now.Date).2 = birth.Date.2 ∧
    0 ≤ dayDifference birth now ∧
    daysAhead (dayDifference birth now).toNat now.Date = nextOccurrence birth.Date now.Date ∧
    (∀ j : Nat, (daysAhead j now.Date).2 = birth.Date.2 → (dayDifference birth now).toNat ≤ j) ∧
    dayDifference birth now ≤ 365 ∧
    (dayDifference birth now = 0 ↔ now.Date.2 = birth.Date.2) := by
  have hb := Time.Date_valid birth
  have hn := Time.Date_valid now
  have hvY : validDate (chosenYear birth now) birth.Date.2.1 birth.Date.2.2 :=
    validDate_any_year _ _ _ _ hb hnot
  have hdd := dayDifference_eq birth now
  have hpos : 0 ≤ dayDifference birth now := by
    rcases dayDifference_bounds birth now hnot with ⟨_, h⟩ | ⟨_, h, _⟩ <;> omega
  rw [nextOccurrence_eq]
  refine ⟨?_, hvY, rfl, hpos, ?_, ?_, ?_, ?_⟩
  · unfold nextBirthday
    exact Date_roundtrip _ _ _ hvY
  · have := daysAhead_iff (dayDifference birth now).toNat now.Date.1 now.Date.2.1 now.Date.2.2
      (chosenYear birth now) birth.Date.2.1 birth.Date.2.2 hn hvY
    rw [this, Int.toNat_of_nonneg hpos, hdd]
    omega
  · intro j hj
    have := nextOccurrence_least birth now hnot j hj
    omega
  · rcases dayDifference_bounds birth now hnot with ⟨_, h⟩ | ⟨_, _, h⟩ <;> omega
  · rcases dayDifference_bounds birth now hnot with ⟨e, h⟩ | ⟨e, h, _⟩
    · exact ⟨fun _ => e, fun _ => h⟩
    · exact ⟨fun h0 => by omega, fun e2 => absurd e2 e⟩

theorem C11_next_birthday_is_earliest_witness :
    (nextBirthday alice.BirthDate (Date 2020 6 16 0 0 0 0)).Date
      = nextOccurrence alice.BirthDate.Date (Date 2020 6 16 0 0 0 0).Date ∧
    isDate (nextOccurrence alice.BirthDate.Date (Date 2020 6 16 0 0 0 0).Date) ∧
    (nextOccurrence alice.BirthDate.Date (Date 2020 6 16 0 0 0 0).Date).2
      = alice.BirthDate.Date.2 ∧
    0 ≤ dayDifference alice.BirthDate (Date 2020 6 16 0 0 0 0) ∧
    daysAhead (dayDifference alice.BirthDate (Date 2020 6 16 0 0 0 0)).toNat
        (Date 2020 6 16 0 0 0 0).Date
      = nextOccurrence alice.BirthDate.Date (Date 2020 6 16 0 0 0 0).Date ∧
    (∀ j : Nat, (daysAhead j (Date 2020 6 16 0 0 0 0).Date).2 = alice.BirthDate.Date.2 →
      (dayDifference alice.BirthDate (Date 2020 6 16 0 0 0 0)).toNat ≤ j) ∧
    dayDifference alice.BirthDate (Date 2020 6 16 0 0 0 0) ≤ 365 ∧
    (dayDifference alice.BirthDate (Date 2020 6 16 0 0 0 0) = 0
      ↔ (Date 2020 6 16 0 0 0 0).Date.2 = alice.BirthDate.Date.2) :=
  C11_next_birthday_is_earliest alice.BirthDate (Date 2020 6 16 0 0 0 0) (by decide)

end Conf
